import Mathlib

/-!
Shallow embedding of the gisele MIDI sequencer engine (src/seq.rs, src/midi.rs,
src/jackp.rs) and proofs about its specification claims.

Modelling conventions:
* Rust f32 and f64 values (bar positions, loop lengths, window times, bpm) are
  modelled as rationals.
* The Rust float remainder operator (truncated remainder, result has the sign
  of the dividend) is modelled by rustRem below.
* Rust saturating float-to-integer casts (the `as u32` and `as u8` operators,
  truncation toward zero, saturating at the type bounds, negatives to 0) are
  modelled by rustCastToU32 and rustCastToU8.
* The random number generator and the music-theory scale helpers are external
  collaborators of the repository; each sampled value is passed to the model
  as an explicit input stream (RandDraw, and pairs of velocity and note
  length draws for the euclidean generator).
* General recursion (the Bjorklund recursion, the binary search loop and the
  realtime emission loop) is modelled with an explicit fuel parameter; fuel
  exhaustion yields the designated default and the development proves the
  fuel supplied by callers is sufficient wherever a claim depends on it.
  For the realtime emission loop the fuel-exhaustion result None is exactly
  how non-termination of the Rust loop surfaces in the model.
* Vec::pop and Vec::push act on the end of a vector, modelled by getLast? and
  dropLast and by appending a singleton.
* Rust stable sort_by_key is modelled by insertion sort on the same key; both
  are stable sorts by the same key, so they produce identical outputs.
* A Rust panic (integer remainder by zero in incr_event_head) is modelled by
  the None value of an Option result.
-/

namespace Gisele

/-! ## Primitive Rust semantics helpers -/

/-- Truncation of a rational toward zero, the rounding used by Rust float
to integer casts and by the float remainder operator. -/
def ratTrunc (q : ℚ) : ℤ := if 0 ≤ q then ⌊q⌋ else ⌈q⌉

/-- Models the Rust float remainder x % y: truncated remainder, with the
sign of the dividend x. -/
def rustRem (x y : ℚ) : ℚ := x - y * (ratTrunc (x / y) : ℚ)

/-- Models the Rust cast `f as u32` of a float: truncation toward zero,
saturating at 0 and at 4294967295. -/
def rustCastToU32 (x : ℚ) : ℕ := if x < 0 then 0 else min 4294967295 (⌊x⌋.toNat)

/-- Models the Rust cast `f as u8` of a float: truncation toward zero,
saturating at 0 and at 255. -/
def rustCastToU8 (x : ℚ) : ℕ := if x < 0 then 0 else min 255 (⌊x⌋.toNat)

/-- Models Vec::dedup on a list of channel numbers: removes consecutive
repeated elements. -/
def rustDedup : List ℕ → List ℕ
  | [] => []
  | [a] => [a]
  | a :: b :: rest => if a = b then rustDedup (b :: rest) else a :: rustDedup (b :: rest)

/-- Models the loop of the Rust core slice binary_search_by algorithm on a
list of keys, searching for k between indices left and right. The Sum value
inl i is the Ok(i) outcome (key found at index i), inr i is Err(i). Fuel is
an upper bound on the iteration count; each iteration strictly shrinks the
interval, so a fuel of one more than the list length is always sufficient. -/
def bsearchAux (keys : List ℕ) (k : ℕ) : ℕ → ℕ → ℕ → Sum ℕ ℕ
  | 0, left, _ => Sum.inr left
  | fuel + 1, left, right =>
    if left < right then
      let mid := left + (right - left) / 2
      let km := keys.getD mid 0
      if km < k then bsearchAux keys k fuel (mid + 1) right
      else if k < km then bsearchAux keys k fuel left mid
      else Sum.inl mid
    else Sum.inr left

/-- Models slice::binary_search_by_key over the whole list of keys. -/
def binary_search_by_key (keys : List ℕ) (k : ℕ) : Sum ℕ ℕ :=
  bsearchAux keys k (keys.length + 1) 0 keys.length

/-! ## Data model (src/midi.rs and src/seq.rs) -/

/-- Models midi.rs MidiNote. -/
structure MidiNote where
  on_off : Bool
  channel : ℕ
  pitch : ℕ
  velocity : ℕ
deriving DecidableEq

/-- Models seq.rs EventType. The midi.rs generators construct the events
through a single MidiNote constructor carrying the on_off flag; the seq.rs
declaration distinguishes note-on and note-off constructors. The model keeps
the two constructors and, like seq.rs change_note_len, treats the on_off
flag as the source of truth for the on or off role of an event. -/
inductive EventType where
  | MidiNoteOn (note : MidiNote)
  | MidiNoteOff (note : MidiNote)
  | Fill
deriving DecidableEq

/-- Models seq.rs Event: an event kind stamped with a bar position. -/
structure Event where
  e_type : EventType
  bar_pos : ℚ
deriving DecidableEq

/-- Models the note type of the external music-theory crate as the data
note_to_midi_pitch consumes: an octave and a pitch-class index. -/
structure Note where
  octave : ℕ
  pitch_class : ℕ
deriving DecidableEq

/-- Models seq.rs BaseSeqType. -/
inductive BaseSeqType where
  | Random (nb_events : ℕ)
  | Euclid (pulses : ℕ) (steps : ℕ)
deriving DecidableEq

/-- Models seq.rs BaseSeqParams. -/
structure BaseSeqParams where
  ty : BaseSeqType
  loop_length : ℚ
  root_note : Note
  note_len_avg : ℚ
  note_len_div : ℚ
  velocity_avg : ℕ
  velocity_div : ℚ
  midi_ch : ℕ
deriving DecidableEq

/-- Models seq.rs BaseSeq. -/
structure BaseSeq where
  params : BaseSeqParams
  event_head : ℕ
  event_buffer : List Event
  fx_proc_ids : List ℕ
  id : ℕ
deriving DecidableEq

/-- Models seq.rs FxProcessor. The entropy-seeded RNG and the normal
distribution are external; the processor is modelled by the event
transformation it induces. -/
structure FxProcessor where
  proc : Event → Event
  id : ℕ

/-- Models seq.rs SeqStatus. -/
inductive SeqStatus where
  | Stop
  | Start
  | Pause
  | Shutdown
deriving DecidableEq

/-- Models seq.rs SeqParams. -/
structure SeqParams where
  status : SeqStatus
  bpm : ℚ
  incr : ℕ
deriving DecidableEq

/-- Models seq.rs SeqInternalStatus. -/
inductive SeqInternalStatus where
  | Silence
  | Playing
deriving DecidableEq

/-- Models seq.rs SeqInternal. -/
structure SeqInternal where
  status : SeqInternalStatus
  j_window_time_start : ℚ
  j_window_time_end : ℚ
  curr_bar : ℕ
deriving DecidableEq

/-- Models seq.rs Sequencer. -/
structure Sequencer where
  params : SeqParams
  base_seqs : List BaseSeq
  fx_procs : List FxProcessor
  internal : SeqInternal

/-- Models the jack Control value returned by the process callback. -/
inductive JackControl where
  | Continue
  | Quit
deriving DecidableEq

/-! ## midi.rs -/

/-- Models midi.rs note_to_midi_pitch. -/
def note_to_midi_pitch (note : Note) : ℕ := (note.octave + 1) * 12 + note.pitch_class

/-- Models the while let pairing loop inside gen_euclid_rec: repeatedly pop a
group from the end of tail and a group from the end of head, pushing their
concatenation onto new_head; when head runs out first the popped tail group
is pushed back. The first argument is the exact length of the tail, which the
loop consumes one element per iteration. Returns (new_head, head, tail)
after the loop. -/
def pairLoopAux : ℕ → List (List ℕ) → List (List ℕ) → List (List ℕ) →
    List (List ℕ) × List (List ℕ) × List (List ℕ)
  | 0, new_head, head, tail => (new_head, head, tail)
  | n + 1, new_head, head, tail =>
    match tail.getLast? with
    | none => (new_head, head, tail)
    | some t =>
      match head.getLast? with
      | none => (new_head, head, tail)
      | some h => pairLoopAux n (new_head ++ [h ++ t]) head.dropLast tail.dropLast

/-- Models one run of the while let loop of gen_euclid_rec. -/
def pairLoop (new_head head tail : List (List ℕ)) :
    List (List ℕ) × List (List ℕ) × List (List ℕ) :=
  pairLoopAux tail.length new_head head tail

/-- Models the recursive function gen_euclid_rec from midi.rs with explicit
fuel for the recursion depth; callers supply sufficient fuel. -/
def genEuclidRecF : ℕ → List (List ℕ) → List (List ℕ) → List ℕ
  | 0, _, _ => []
  | fuel + 1, head, tail =>
    if head.isEmpty then tail.flatten
    else
      let r := pairLoop [] head tail
      let new_head := r.1
      let head1 := r.2.1
      let tail1 := r.2.2
      let tail2 := if tail1.isEmpty && !head1.isEmpty then head1 else tail1
      if tail2.length ≤ 1 then new_head.flatten ++ tail2.flatten
      else genEuclidRecF fuel new_head tail2

/-- Models midi.rs gen_euclid. Returns none for the error case (steps less
than pulses); otherwise runs the Bjorklund recursion on pulses head groups
and steps minus pulses tail groups. The supplied fuel exceeds the recursion
depth, which is bounded by the total number of groups plus one. -/
def gen_euclid (pulses steps : ℕ) : Option (List ℕ) :=
  if steps < pulses then none
  else
    let head := List.replicate pulses [1]
    let tail := List.replicate (steps - pulses) [0]
    some (genEuclidRecF (head.length + tail.length + 2) head tail)

/-- Models one random draw consumed by an iteration of gen_rand_midi_vec:
the selected midi pitch (the uniform scale index already mapped through the
external scale and note_to_midi_pitch), the sampled velocity, the sampled
note length, and the sampled uniform time increment. -/
structure RandDraw where
  pitch : ℕ
  velocity : ℚ
  note_len : ℚ
  time_incr : ℚ

/-- Models the generation loop of midi.rs gen_rand_midi_vec over the list of
draws, carrying the running step offset. -/
def gen_rand_events (loop_length : ℚ) (midi_ch : ℕ) : List RandDraw → ℚ → List Event
  | [], _ => []
  | d :: rest, step_offset =>
    let vel := rustCastToU8 d.velocity
    let on_ev : Event :=
      { e_type := EventType.MidiNoteOn
          { on_off := true, channel := midi_ch, pitch := d.pitch, velocity := vel },
        bar_pos := step_offset }
    let off_ev : Event :=
      { e_type := EventType.MidiNoteOff
          { on_off := false, channel := midi_ch, pitch := d.pitch, velocity := vel },
        bar_pos := rustRem (step_offset + d.note_len) loop_length }
    on_ev :: off_ev ::
      gen_rand_events loop_length midi_ch rest (rustRem (step_offset + d.time_incr) loop_length)

/-- Models midi.rs gen_rand_midi_vec: for a Random base sequence, generate a
note-on and note-off pair per draw; for any other kind return the empty
buffer (the source logs a warning and falls through). -/
def gen_rand_midi_vec (p : BaseSeqParams) (rd : ℕ → RandDraw) : List Event :=
  match p.ty with
  | BaseSeqType.Random nb_events =>
    gen_rand_events p.loop_length p.midi_ch ((List.range nb_events).map rd) 0
  | _ => []

/-- Models the generation loop of midi.rs gen_euclid_midi_vec over the
euclidean rhythm, consuming one velocity and note-length draw per step and
advancing the time offset by the step length each step; steps whose rhythm
value is zero emit nothing. -/
def gen_euclid_events (loop_length step_len : ℚ) (midi_ch pitch : ℕ)
    (ed : ℕ → ℚ × ℚ) : List ℕ → ℕ → ℚ → List Event
  | [], _, _ => []
  | i :: rest, k, time_offset =>
    let vel := rustCastToU8 (ed k).1
    let on_ev : Event :=
      { e_type := EventType.MidiNoteOn
          { on_off := true, channel := midi_ch, pitch := pitch, velocity := vel },
        bar_pos := time_offset }
    let off_ev : Event :=
      { e_type := EventType.MidiNoteOff
          { on_off := false, channel := midi_ch, pitch := pitch, velocity := vel },
        bar_pos := rustRem (time_offset + (ed k).2) loop_length }
    if i = 0 then
      gen_euclid_events loop_length step_len midi_ch pitch ed rest (k + 1) (time_offset + step_len)
    else
      on_ev :: off_ev ::
        gen_euclid_events loop_length step_len midi_ch pitch ed rest (k + 1) (time_offset + step_len)

/-- Models midi.rs gen_euclid_midi_vec: refuse generation (empty buffer, Ok)
when the loop length is not a float multiple of the step count; propagate
the gen_euclid error; otherwise emit events for the rhythm with step length
loop_length divided by steps. For a non-euclidean kind return Ok empty. -/
def gen_euclid_midi_vec (p : BaseSeqParams) (ed : ℕ → ℚ × ℚ) : Except Unit (List Event) :=
  match p.ty with
  | BaseSeqType.Euclid pulses steps =>
    if rustRem p.loop_length (steps : ℚ) ≠ 0 then Except.ok []
    else
      match gen_euclid pulses steps with
      | none => Except.error ()
      | some rhythm =>
        Except.ok (gen_euclid_events p.loop_length (p.loop_length / (steps : ℚ)) p.midi_ch
          (note_to_midi_pitch p.root_note) ed rhythm 0 0)
  | _ => Except.ok []

/-! ## seq.rs: BaseSeq operations -/

/-- Models the sort key of seq.rs sort_by_key calls: the bar position times
1000 cast to u32. -/
def sortKey (e : Event) : ℕ := rustCastToU32 (e.bar_pos * 1000)

/-- Ordering of events by their integer sort key. -/
def key_le (e1 e2 : Event) : Prop := sortKey e1 ≤ sortKey e2

instance : DecidableRel key_le := fun a b => inferInstanceAs (Decidable (sortKey a ≤ sortKey b))

instance : IsTotal Event key_le := ⟨fun a b => Nat.le_total (sortKey a) (sortKey b)⟩

instance : IsTrans Event key_le := ⟨fun _ _ _ => Nat.le_trans⟩

/-- Models Vec::sort_by_key with the scaled bar position key. Both the Rust
sort and insertion sort are stable sorts, so they agree on every input. -/
def sort_by_key (l : List Event) : List Event := List.insertionSort key_le l

/-- Models seq.rs BaseSeq::sync_event_head as a function of the event
buffer, the loop length and the jack window end time: binary-search the
scaled integer key of the window end position reduced modulo the loop
length, then scan forward for the first event with a bar position strictly
greater than the bar position at the found index; fall back to 0 and clamp
to the last index. -/
def sync_event_head (buffer : List Event) (loop_length : ℚ) (window_end : ℚ) : ℕ :=
  let key := (1000 * rustCastToU32 (rustRem window_end loop_length)) % 4294967296
  let idx :=
    match binary_search_by_key (buffer.map sortKey) key with
    | Sum.inl i => i
    | Sum.inr i => i
  let new_head :=
    if idx = buffer.length then 0
    else
      match buffer.get? idx with
      | none => 0
      | some anchor =>
        match (buffer.drop idx).findIdx? (fun e => decide (anchor.bar_pos < e.bar_pos)) with
        | some j => idx + j
        | none => 0
  min new_head (buffer.length - 1)

/-- Models the event generation dispatch at the top of BaseSeq::gen_fill. -/
def gen_fill_events (p : BaseSeqParams) (rd : ℕ → RandDraw) (ed : ℕ → ℚ × ℚ) :
    Except Unit (List Event) :=
  match p.ty with
  | BaseSeqType.Random _ => Except.ok (gen_rand_midi_vec p rd)
  | BaseSeqType.Euclid _ _ => gen_euclid_midi_vec p ed

/-- Models seq.rs BaseSeq::gen_fill: regenerate the events from the current
parameters, sort them by the scaled key, install the buffer and resync the
event head against the jack window end. On a generation error the base
sequence is left unchanged (the error path of the source returns before the
buffer is replaced). -/
def BaseSeq.gen_fill (b : BaseSeq) (rd : ℕ → RandDraw) (ed : ℕ → ℚ × ℚ)
    (si : SeqInternal) : Except Unit BaseSeq :=
  match gen_fill_events b.params rd ed with
  | Except.error e => Except.error e
  | Except.ok events =>
    let sorted := sort_by_key events
    Except.ok { b with
      event_buffer := sorted,
      event_head := sync_event_head sorted b.params.loop_length si.j_window_time_end }

/-- Models seq.rs BaseSeq::new_fill. -/
def BaseSeq.new_fill (p : BaseSeqParams) (id : ℕ) (rd : ℕ → RandDraw)
    (ed : ℕ → ℚ × ℚ) (si : SeqInternal) : Except Unit BaseSeq :=
  BaseSeq.gen_fill
    { params := p, event_head := 0, event_buffer := [], fx_proc_ids := [], id := id } rd ed si

/-- Models seq.rs BaseSeq::change_note_len: shift every event whose on_off
flag is false by the difference between the target and the current average
note length, reduce modulo the loop length, update the average, re-sort and
resync the head. -/
def BaseSeq.change_note_len (b : BaseSeq) (target_note_len : ℚ) (si : SeqInternal) : BaseSeq :=
  let l := b.params.loop_length
  let shifted := b.event_buffer.map (fun e =>
    match e.e_type with
    | EventType.MidiNoteOn n | EventType.MidiNoteOff n =>
      if n.on_off = false then
        { e with bar_pos := rustRem (e.bar_pos + target_note_len - b.params.note_len_avg) l }
      else e
    | EventType.Fill => e)
  let sorted := sort_by_key shifted
  { b with
    params := { b.params with note_len_avg := target_note_len },
    event_buffer := sorted,
    event_head := sync_event_head sorted l si.j_window_time_end }

/-- Models seq.rs BaseSeq::set_nb_events: only valid on a Random base
sequence, in which case the event count is updated and the buffer is
regenerated; on any other kind the call fails before touching any state. -/
def BaseSeq.set_nb_events (b : BaseSeq) (target_nb_events : ℕ) (rd : ℕ → RandDraw)
    (ed : ℕ → ℚ × ℚ) (si : SeqInternal) : Except Unit BaseSeq :=
  match b.params.ty with
  | BaseSeqType.Random _ =>
    BaseSeq.gen_fill
      { b with params := { b.params with ty := BaseSeqType.Random target_nb_events } } rd ed si
  | _ => Except.error ()

/-- Models the Rust integer clamp method with bounds lo and hi. -/
def clampInt (z lo hi : ℤ) : ℤ := max lo (min z hi)

/-- Models seq.rs BaseSeq::transpose: shift the pitch of every note event by
the midi pitch difference of the root notes, clamped to the range 0 to 127,
and update the root note. Bar positions are untouched. -/
def BaseSeq.transpose (b : BaseSeq) (target_root_note : Note) : BaseSeq :=
  let pitch_diff : ℤ :=
    (note_to_midi_pitch target_root_note : ℤ) - (note_to_midi_pitch b.params.root_note : ℤ)
  { b with
    params := { b.params with root_note := target_root_note },
    event_buffer := b.event_buffer.map (fun e =>
      match e.e_type with
      | EventType.MidiNoteOn n =>
        let n2 := { n with pitch := (clampInt ((n.pitch : ℤ) + pitch_diff) 0 127).toNat }
        { e with e_type := EventType.MidiNoteOn n2 }
      | EventType.MidiNoteOff n =>
        let n2 := { n with pitch := (clampInt ((n.pitch : ℤ) + pitch_diff) 0 127).toNat }
        { e with e_type := EventType.MidiNoteOff n2 }
      | EventType.Fill => e) }

/-- Models seq.rs BaseSeq::incr_event_head as a function of the buffer and
the current head. The Rust body computes (head + 1) % len unconditionally;
on an empty buffer that is an integer remainder by zero, a panic, modelled
by none. -/
def incr_event_head (buffer : List Event) (head : ℕ) : Option ℕ :=
  if buffer.length = 0 then none else some ((head + 1) % buffer.length)

/-! ## seq.rs: Sequencer operations -/

/-- Models seq.rs Sequencer::new. -/
def Sequencer.new (bpm : ℚ) : Sequencer :=
  { params := { status := SeqStatus.Stop, bpm := bpm, incr := 0 },
    base_seqs := [],
    fx_procs := [],
    internal :=
      { status := SeqInternalStatus.Silence, j_window_time_start := 0,
        j_window_time_end := 0, curr_bar := 0 } }

/-- Models seq.rs Sequencer::empty: drop all base sequences and reset the
id counter; every other field is untouched. -/
def Sequencer.empty (s : Sequencer) : Sequencer :=
  { s with base_seqs := [], params := { s.params with incr := 0 } }

/-- Models seq.rs Sequencer::reset_base_seqs: set every event head to 0. -/
def Sequencer.reset_base_seqs (s : Sequencer) : Sequencer :=
  { s with base_seqs := s.base_seqs.map (fun b => { b with event_head := 0 }) }

/-- Models seq.rs Sequencer::notes_off: collect the midi channels of all
base sequences, sort and dedup them, and emit a note-off with velocity 1
for every pitch 0 to 127 on each remaining channel. -/
def Sequencer.notes_off (s : Sequencer) : List Event :=
  let midi_chs :=
    rustDedup (List.insertionSort (fun a b : ℕ => a ≤ b)
      (s.base_seqs.map (fun b => b.params.midi_ch)))
  midi_chs.flatMap (fun ch =>
    (List.range 128).map (fun pitch =>
      { e_type := EventType.MidiNoteOff
          { on_off := false, channel := ch, pitch := pitch, velocity := 1 },
        bar_pos := 0 }))

/-- Mutation of the first list entry with the given id, as performed through
the iter().find based getters of seq.rs. -/
def modifyFirst (l : List BaseSeq) (id : ℕ) (f : BaseSeq → BaseSeq) : List BaseSeq :=
  match l with
  | [] => []
  | b :: rest => if b.id = id then f b :: rest else b :: modifyFirst rest id f

/-- Models seq.rs Sequencer::change_loop_len: look the base sequence up (an
unknown id is an error that leaves the state unchanged) and overwrite its
loop length with the target, with no validation of the target value.
Returns the Rust result together with the post-call sequencer state. -/
def Sequencer.change_loop_len (s : Sequencer) (base_seq_id : ℕ) (target_loop_len : ℚ) :
    Except Unit Unit × Sequencer :=
  match s.base_seqs.find? (fun b => b.id == base_seq_id) with
  | none => (Except.error (), s)
  | some _ =>
    let seqs2 := modifyFirst s.base_seqs base_seq_id
      (fun b => { b with params := { b.params with loop_length := target_loop_len } })
    (Except.ok (), { s with base_seqs := seqs2 })

/-- Models seq.rs Sequencer::set_nb_events: look the base sequence up and
delegate to BaseSeq::set_nb_events; on any error the state is unchanged.
Returns the Rust result together with the post-call sequencer state. -/
def Sequencer.set_nb_events (s : Sequencer) (base_seq_id target_nb_events : ℕ)
    (rd : ℕ → RandDraw) (ed : ℕ → ℚ × ℚ) : Except Unit Unit × Sequencer :=
  match s.base_seqs.find? (fun b => b.id == base_seq_id) with
  | none => (Except.error (), s)
  | some b =>
    match BaseSeq.set_nb_events b target_nb_events rd ed s.internal with
    | Except.error _ => (Except.error (), s)
    | Except.ok b2 =>
      (Except.ok (), { s with base_seqs := modifyFirst s.base_seqs base_seq_id (fun _ => b2) })

/-- Models seq.rs Sequencer::add_base_seq: build and fill a new base
sequence with the current id counter, append it and bump the counter; a
generation failure propagates before any state changes. -/
def Sequencer.add_base_seq (s : Sequencer) (p : BaseSeqParams) (rd : ℕ → RandDraw)
    (ed : ℕ → ℚ × ℚ) : Except Unit Sequencer :=
  match BaseSeq.new_fill p s.params.incr rd ed s.internal with
  | Except.error e => Except.error e
  | Except.ok b =>
    Except.ok { s with
      base_seqs := s.base_seqs ++ [b],
      params := { s.params with incr := s.params.incr + 1 } }

/-- Models seq.rs Sequencer::add_fx_processor: build a processor carrying
the current id counter, register its id with the owning base sequence,
append it to the processor registry and bump the counter; an unknown owner
id is an error that leaves the state unchanged. The event transformation
induced by the entropy-seeded processor is supplied as the argument pf. -/
def Sequencer.add_fx_processor (s : Sequencer) (base_seq_id : ℕ) (pf : Event → Event) :
    Except Unit Sequencer :=
  match s.base_seqs.find? (fun b => b.id == base_seq_id) with
  | none => Except.error ()
  | some _ =>
    Except.ok { s with
      base_seqs := modifyFirst s.base_seqs base_seq_id
        (fun b => { b with fx_proc_ids := b.fx_proc_ids ++ [s.params.incr] }),
      fx_procs := s.fx_procs ++ [{ proc := pf, id := s.params.incr }],
      params := { s.params with incr := s.params.incr + 1 } }

/-- Models seq.rs Sequencer::process_event: fold the event through the
processors named by the id list, silently skipping missing ids. -/
def process_event (procs : List FxProcessor) (proc_ids : List ℕ) (e : Event) : Event :=
  proc_ids.foldl
    (fun ev i =>
      match procs.find? (fun p => p.id == i) with
      | some p => p.proc ev
      | none => ev) e

/-- Models the pitch update performed by seq.rs FxProcessor::process on a
note event: the pitch plus the sampled normal jitter d, cast back to u8 by
the saturating truncating Rust float cast. -/
def fx_process_pitch (pitch : ℕ) (d : ℚ) : ℕ := rustCastToU8 ((pitch : ℚ) + d)

/-- Models seq.rs SeqInternal::event_in_cycle. -/
def SeqInternal.event_in_cycle (si : SeqInternal) (event_time : ℚ) (loop_len : ℚ) : Bool :=
  let win_start_looped := rustRem si.j_window_time_start loop_len
  let win_end_looped := rustRem si.j_window_time_end loop_len
  if win_start_looped < win_end_looped then
    decide (win_start_looped ≤ event_time ∧ event_time < win_end_looped)
  else
    decide (win_start_looped ≤ event_time ∨ event_time < win_end_looped)

/-! ## jackp.rs: the realtime tick -/

/-- Models the inner per-sequence emission loop of the jack process closure
with explicit fuel. None models a run that performs more iterations than
the given fuel; a loop that never breaks yields none for every fuel, which
is how non-termination of the Rust loop surfaces. On success it returns the
emitted events of this sequence and the final event head. -/
def emit_loop (procs : List FxProcessor) (si : SeqInternal) (loop_len : ℚ)
    (buffer : List Event) (fx_ids : List ℕ) : ℕ → ℕ → Option (List Event × ℕ)
  | 0, _ => none
  | fuel + 1, head =>
    match buffer.get? head with
    | none => some ([], head)
    | some e =>
      let push_event := si.event_in_cycle e.bar_pos loop_len
      if loop_len ≤ e.bar_pos then
        match incr_event_head buffer head with
        | none => none
        | some h2 => emit_loop procs si loop_len buffer fx_ids fuel h2
      else if push_event then
        let e2 := process_event procs fx_ids e
        match incr_event_head buffer head with
        | none => none
        | some h2 =>
          match emit_loop procs si loop_len buffer fx_ids fuel h2 with
          | none => none
          | some (evs, hf) => some (e2 :: evs, hf)
      else some ([], head)

/-- Models the iteration over base sequences of the jack process closure:
run the emission loop of each sequence in stored order, collecting the
emitted events and the updated heads. -/
def seqs_emit (procs : List FxProcessor) (si : SeqInternal) (fuel : ℕ) :
    List BaseSeq → Option (List Event × List BaseSeq)
  | [] => some ([], [])
  | b :: rest =>
    match emit_loop procs si b.params.loop_length b.event_buffer b.fx_proc_ids fuel
        b.event_head with
    | none => none
    | some (evs, h2) =>
      match seqs_emit procs si fuel rest with
      | none => none
      | some (evs2, rest2) => some (evs ++ evs2, { b with event_head := h2 } :: rest2)

/-- Models one invocation of the jack process closure of jackp.rs: the
status transitions, the window advance by bpm times the cycle microsecond
span over 6e7, the pause and stop handling with the all-notes-off tail, and
the per-sequence emission loops. The emitted midi events are returned as a
list; delta_usec is the cycle time span next_usecs minus current_usecs. -/
def tick (s : Sequencer) (delta_usec : ℚ) (fuel : ℕ) :
    Option (List Event × Sequencer × JackControl) :=
  let int1 :=
    if s.params.status = SeqStatus.Start then
      { s.internal with status := SeqInternalStatus.Playing }
    else s.internal
  if int1.status = SeqInternalStatus.Silence then
    some ([], { s with internal := int1 }, JackControl.Continue)
  else
    let wend := int1.j_window_time_end + s.params.bpm * delta_usec / 60000000
    let int3 :=
      { int1 with
        j_window_time_start := int1.j_window_time_end,
        j_window_time_end := wend,
        curr_bar := rustCastToU32 wend }
    if s.params.status = SeqStatus.Pause ∨ s.params.status = SeqStatus.Stop then
      let out := Sequencer.notes_off s
      if s.params.status = SeqStatus.Stop then
        let s2 := Sequencer.reset_base_seqs s
        some (out,
          { s2 with internal :=
              { int3 with
                j_window_time_start := 0, j_window_time_end := 0,
                status := SeqInternalStatus.Silence } },
          JackControl.Continue)
      else
        some (out,
          { s with internal := { int3 with status := SeqInternalStatus.Silence } },
          JackControl.Continue)
    else
      match seqs_emit s.fx_procs int3 fuel s.base_seqs with
      | none => none
      | some (evs, seqs2) =>
        some (evs, { s with base_seqs := seqs2, internal := int3 }, JackControl.Continue)

/-! ## Concrete inputs used by claim witnesses and counterexamples -/

/-- Projection of a fallible gen_fill result onto the resulting event
buffer, with the empty buffer for the error case. -/
def bufferOf (r : Except Unit BaseSeq) : List Event :=
  match r with
  | Except.ok b => b.event_buffer
  | Except.error _ => []

/-- A jack-silent internal state at time zero. -/
def c_internal : SeqInternal :=
  { status := SeqInternalStatus.Silence, j_window_time_start := 0,
    j_window_time_end := 0, curr_bar := 0 }

/-- A random base sequence over two events with loop length 4. -/
def c4_base : BaseSeq :=
  { params :=
      { ty := BaseSeqType.Random 2, loop_length := 4, root_note := { octave := 4, pitch_class := 9 },
        note_len_avg := 1 / 2, note_len_div := 0, velocity_avg := 100, velocity_div := 0,
        midi_ch := 1 },
    event_head := 0, event_buffer := [], fx_proc_ids := [], id := 0 }

/-- Draw stream whose first note length 2001/4000 and first time increment
1/2 put a note-off 1/2000 bar after the second note-on, with both events
sharing the integer sort key 500. -/
def c4_draws : ℕ → RandDraw := fun i =>
  if i = 0 then { pitch := 60, velocity := 100, note_len := 2001 / 4000, time_incr := 1 / 2 }
  else { pitch := 60, velocity := 100, note_len := 1, time_incr := 0 }

/-- The random base sequence of c4_base restricted to one event. -/
def c4_base_neg : BaseSeq :=
  { c4_base with params := { c4_base.params with ty := BaseSeqType.Random 1 } }

/-- Draw stream with a negative sampled note length. -/
def c4_draws_neg : ℕ → RandDraw := fun _ =>
  { pitch := 60, velocity := 100, note_len := -(1 / 2), time_incr := 0 }

/-- Nonnegative euclidean velocity and note-length draw stream. -/
def c_edraws : ℕ → ℚ × ℚ := fun _ => (100, 1 / 2)

/-- A euclidean base sequence used to exercise the failing mutators. -/
def c8_base : BaseSeq :=
  { params :=
      { ty := BaseSeqType.Euclid 3 8, loop_length := 8, root_note := { octave := 4, pitch_class := 0 },
        note_len_avg := 1 / 2, note_len_div := 0, velocity_avg := 100, velocity_div := 0,
        midi_ch := 1 },
    event_head := 0, event_buffer := [], fx_proc_ids := [], id := 0 }

/-- A sequencer holding the single euclidean base sequence c8_base. -/
def c8_seq : Sequencer :=
  { params := { status := SeqStatus.Stop, bpm := 120, incr := 1 },
    base_seqs := [c8_base], fx_procs := [], internal := c_internal }

/-- The identity event transformation, standing in for a concrete effect
processor in the id-collision scenario. -/
def idFn : Event → Event := fun e => e

/-- A random base sequence parameter record over zero events. -/
def c10_params : BaseSeqParams :=
  { ty := BaseSeqType.Random 0, loop_length := 4, root_note := { octave := 4, pitch_class := 9 },
    note_len_avg := 1 / 2, note_len_div := 0, velocity_avg := 100, velocity_div := 0,
    midi_ch := 1 }

/-- Constant draw stream for the id-collision scenario. -/
def c10_draws : ℕ → RandDraw := fun _ =>
  { pitch := 60, velocity := 100, note_len := 1 / 2, time_incr := 1 }

/-- The id-collision scenario: add a base sequence and an effect processor,
call empty, then add a base sequence and an effect processor again. -/
def c10_scenario : Except Unit Sequencer :=
  Except.bind (Sequencer.add_base_seq (Sequencer.new 120) c10_params c10_draws c_edraws)
    (fun s1 => Except.bind (Sequencer.add_fx_processor s1 0 idFn)
      (fun s2 => Except.bind
        (Sequencer.add_base_seq (Sequencer.empty s2) c10_params c10_draws c_edraws)
        (fun s4 => Sequencer.add_fx_processor s4 0 idFn)))

/-- The effect processor ids registered after the id-collision scenario. -/
def c10_fx_ids : Except Unit (List ℕ) :=
  Except.map (fun s => s.fx_procs.map (fun p => p.id)) c10_scenario

/-- The midi channel carried by an event (0 for the reserved fill kind). -/
def event_channel (e : Event) : ℕ :=
  match e.e_type with
  | EventType.MidiNoteOn n => n.channel
  | EventType.MidiNoteOff n => n.channel
  | EventType.Fill => 0

/-- Shorthand for a note-on event as constructed by the generators. -/
def mk_on (ch pitch vel : ℕ) (pos : ℚ) : Event :=
  { e_type := EventType.MidiNoteOn
      { on_off := true, channel := ch, pitch := pitch, velocity := vel },
    bar_pos := pos }

/-- Shorthand for a note-off event as constructed by the generators. -/
def mk_off (ch pitch vel : ℕ) (pos : ℚ) : Event :=
  { e_type := EventType.MidiNoteOff
      { on_off := false, channel := ch, pitch := pitch, velocity := vel },
    bar_pos := pos }

/-- A base sequence with loop length 3 but an event at bar position 5,
beyond the loop length. -/
def c6_base : BaseSeq :=
  { params :=
      { ty := BaseSeqType.Random 1, loop_length := 3,
        root_note := { octave := 4, pitch_class := 9 }, note_len_avg := 1 / 2,
        note_len_div := 0, velocity_avg := 100, velocity_div := 0, midi_ch := 1 },
    event_head := 0, event_buffer := [mk_on 1 60 100 5], fx_proc_ids := [], id := 0 }

/-- A sequencer in Start state holding only c6_base. -/
def c6_seq : Sequencer :=
  { params := { status := SeqStatus.Start, bpm := 120, incr := 1 },
    base_seqs := [c6_base],
    fx_procs := [],
    internal := c_internal }

/-- The block of 128 note-off events with velocity 1 that notes_off emits
for one channel. -/
def off_block (ch : ℕ) : List Event :=
  (List.range 128).map (fun pitch =>
    { e_type := EventType.MidiNoteOff
        { on_off := false, channel := ch, pitch := pitch, velocity := 1 },
      bar_pos := 0 })

/-- A playing sequencer whose control status is Stop, on the single
euclidean base sequence c8_base. -/
def c5_seq : Sequencer :=
  { params := { status := SeqStatus.Stop, bpm := 120, incr := 1 },
    base_seqs := [c8_base],
    fx_procs := [],
    internal :=
      { status := SeqInternalStatus.Playing, j_window_time_start := 2,
        j_window_time_end := 3, curr_bar := 2 } }

/-! ## Lemmas about the primitive Rust semantics helpers -/

theorem ratTrunc_of_nonneg {q : ℚ} (h : 0 ≤ q) : ratTrunc q = ⌊q⌋ := if_pos h

theorem rustRem_formula (x l : ℚ) (hx : 0 ≤ x) (hl : 0 < l) :
    rustRem x l = x - l * ⌊x / l⌋ := by
  unfold rustRem
  rw [ratTrunc_of_nonneg (div_nonneg hx hl.le)]

theorem rustRem_nonneg (x l : ℚ) (hx : 0 ≤ x) (hl : 0 < l) : 0 ≤ rustRem x l := by
  rw [rustRem_formula x l hx hl]
  have h1 : ((⌊x / l⌋ : ℚ)) ≤ x / l := Int.floor_le (x / l)
  rw [le_div_iff₀ hl] at h1
  linarith

theorem rustRem_lt (x l : ℚ) (hx : 0 ≤ x) (hl : 0 < l) : rustRem x l < l := by
  rw [rustRem_formula x l hx hl]
  have h1 : x / l < ⌊x / l⌋ + 1 := Int.lt_floor_add_one (x / l)
  rw [div_lt_iff₀ hl] at h1
  linarith

theorem rustRem_eq_of_between (x l : ℚ) (k : ℤ) (hk : 0 ≤ k) (hl : 0 < l)
    (h1 : (k : ℚ) * l ≤ x) (h2 : x < ((k : ℚ) + 1) * l) : rustRem x l = x - k * l := by
  have hx : 0 ≤ x := le_trans (mul_nonneg (by exact_mod_cast hk) hl.le) h1
  rw [rustRem_formula x l hx hl]
  have hfl : ⌊x / l⌋ = k := by
    apply Int.floor_eq_iff.mpr
    constructor
    · rw [le_div_iff₀ hl]; exact h1
    · rw [div_lt_iff₀ hl]; exact_mod_cast h2
  rw [hfl]
  ring

theorem rustRem_of_neg_gt (x l : ℚ) (hl : 0 < l) (h1 : -l < x) (h2 : x < 0) :
    rustRem x l = x := by
  unfold rustRem ratTrunc
  have hq : x / l < 0 := div_neg_of_neg_of_pos h2 hl
  rw [if_neg (not_le.mpr hq)]
  have hc : ⌈x / l⌉ = 0 := by
    apply Int.ceil_eq_iff.mpr
    constructor
    · push_cast
      rw [lt_div_iff₀ hl]
      linarith
    · exact_mod_cast (div_neg_of_neg_of_pos h2 hl).le
  rw [hc]
  push_cast
  ring

theorem rustRem_zero_left (l : ℚ) : rustRem 0 l = 0 := by
  unfold rustRem ratTrunc
  simp

theorem rustCastToU32_eq (x : ℚ) (n : ℕ) (h1 : (n : ℚ) ≤ x) (h2 : x < (n : ℚ) + 1)
    (h3 : n ≤ 4294967295) : rustCastToU32 x = n := by
  have hx : 0 ≤ x := le_trans (by exact_mod_cast Nat.zero_le n) h1
  unfold rustCastToU32
  rw [if_neg (not_lt.mpr hx)]
  have hfl : ⌊x⌋ = (n : ℤ) := by
    apply Int.floor_eq_iff.mpr
    constructor
    · exact_mod_cast h1
    · push_cast; exact h2
  rw [hfl]
  simp [Int.toNat_ofNat]
  omega

theorem rustCastToU8_eq (x : ℚ) (n : ℕ) (h1 : (n : ℚ) ≤ x) (h2 : x < (n : ℚ) + 1)
    (h3 : n ≤ 255) : rustCastToU8 x = n := by
  have hx : 0 ≤ x := le_trans (by exact_mod_cast Nat.zero_le n) h1
  unfold rustCastToU8
  rw [if_neg (not_lt.mpr hx)]
  have hfl : ⌊x⌋ = (n : ℤ) := by
    apply Int.floor_eq_iff.mpr
    constructor
    · exact_mod_cast h1
    · push_cast; exact h2
  rw [hfl]
  simp [Int.toNat_ofNat]
  omega

/-! ## Lemmas about the Bjorklund recursion -/

theorem getLast?_replicate_succ {α : Type} (n : ℕ) (a : α) :
    (List.replicate (n + 1) a).getLast? = some a := by
  rw [List.replicate_succ']
  simp

theorem dropLast_replicate_succ {α : Type} (n : ℕ) (a : α) :
    (List.replicate (n + 1) a).dropLast = List.replicate n a := by
  rw [List.replicate_succ']
  simp

theorem pairLoopAux_replicate (H T : List ℕ) :
    ∀ (b : ℕ) (nh : List (List ℕ)) (a : ℕ),
      pairLoopAux b nh (List.replicate a H) (List.replicate b T) =
        if b ≤ a then
          (nh ++ List.replicate b (H ++ T), List.replicate (a - b) H, ([] : List (List ℕ)))
        else
          (nh ++ List.replicate a (H ++ T), ([] : List (List ℕ)), List.replicate (b - a) T) := by
  intro b
  induction b with
  | zero =>
    intro nh a
    simp [pairLoopAux]
  | succ b ih =>
    intro nh a
    cases a with
    | zero =>
      simp [pairLoopAux, getLast?_replicate_succ]
    | succ a =>
      simp only [pairLoopAux, getLast?_replicate_succ, dropLast_replicate_succ]
      rw [ih]
      by_cases hba : b ≤ a
      · rw [if_pos hba, if_pos (Nat.succ_le_succ hba)]
        have hsub : a + 1 - (b + 1) = a - b := by omega
        rw [hsub]
        rw [List.append_assoc]
        rw [show ([H ++ T] : List (List ℕ)) ++ List.replicate b (H ++ T) =
          List.replicate (b + 1) (H ++ T) from (List.replicate_succ (H ++ T) b).symm ▸ rfl]
      · rw [if_neg hba, if_neg (fun h => hba (Nat.le_of_succ_le_succ h))]
        have hsub : b + 1 - (a + 1) = b - a := by omega
        rw [hsub]
        rw [List.append_assoc]
        rw [show ([H ++ T] : List (List ℕ)) ++ List.replicate a (H ++ T) =
          List.replicate (a + 1) (H ++ T) from (List.replicate_succ (H ++ T) a).symm ▸ rfl]

theorem isEmpty_replicate_succ {α : Type} (n : ℕ) (a : α) :
    (List.replicate (n + 1) a).isEmpty = false := by
  simp [List.replicate_succ]

theorem flatten_replicate_f (f : List ℕ → ℕ) (hf : ∀ x y, f (x ++ y) = f x + f y)
    (h0 : f [] = 0) : ∀ (n : ℕ) (T : List ℕ), f ((List.replicate n T).flatten) = n * f T := by
  intro n
  induction n with
  | zero => intro T; simp [h0]
  | succ n ih =>
    intro T
    rw [List.replicate_succ]
    rw [List.flatten_cons, hf, ih]
    ring

theorem genEuclidRecF_f (f : List ℕ → ℕ) (hf : ∀ x y, f (x ++ y) = f x + f y)
    (h0 : f [] = 0) :
    ∀ (fuel a b : ℕ) (H T : List ℕ), a + b + 2 ≤ fuel →
      f (genEuclidRecF fuel (List.replicate a H) (List.replicate b T)) =
        a * f H + b * f T := by
  intro fuel
  induction fuel with
  | zero =>
    intro a b H T hfuel
    omega
  | succ fuel ih =>
    intro a b H T hfuel
    cases a with
    | zero =>
      simp [genEuclidRecF, flatten_replicate_f f hf h0]
    | succ a1 =>
      have hne : ¬ ((List.replicate (a1 + 1) H).isEmpty = true) := by
        simp [isEmpty_replicate_succ]
      cases b with
      | zero =>
        have hp : pairLoop [] (List.replicate (a1 + 1) H) (List.replicate 0 T) =
            ([], List.replicate (a1 + 1) H, []) := by
          rw [pairLoop, List.length_replicate, pairLoopAux_replicate]
          simp
        rw [genEuclidRecF, if_neg hne]
        simp only [hp, List.isEmpty_nil, isEmpty_replicate_succ, Bool.not_false,
          Bool.true_and, if_true, List.length_replicate]
        cases a1 with
        | zero =>
          rw [if_pos (by omega)]
          simp only [List.flatten_nil, List.nil_append]
          rw [flatten_replicate_f f hf h0]
          ring
        | succ a2 =>
          rw [if_neg (by omega)]
          obtain ⟨g, rfl⟩ : ∃ g, fuel = g + 1 := ⟨fuel - 1, by omega⟩
          rw [genEuclidRecF]
          rw [if_pos (by simp)]
          rw [flatten_replicate_f f hf h0]
          ring
      | succ b1 =>
        by_cases hba : b1 + 1 ≤ a1 + 1
        · obtain ⟨c, rfl⟩ : ∃ c, a1 = b1 + c := ⟨a1 - b1, by omega⟩
          have hp : pairLoop [] (List.replicate (b1 + c + 1) H) (List.replicate (b1 + 1) T) =
              (List.replicate (b1 + 1) (H ++ T), List.replicate c H, []) := by
            rw [pairLoop, List.length_replicate, pairLoopAux_replicate]
            rw [if_pos hba]
            simp only [List.nil_append]
            have hcc : b1 + c + 1 - (b1 + 1) = c := by omega
            rw [hcc]
          rw [genEuclidRecF, if_neg hne]
          simp only [hp]
          cases c with
          | zero =>
            simp only [List.replicate_zero, List.isEmpty_nil, Bool.not_true, Bool.and_false,
              Bool.false_eq_true, if_false, List.length_nil]
            rw [if_pos (by omega)]
            simp only [List.flatten_nil, List.append_nil]
            rw [flatten_replicate_f f hf h0, hf]
            ring
          | succ c1 =>
            simp only [List.isEmpty_nil, isEmpty_replicate_succ, Bool.not_false,
              Bool.true_and, if_true, List.length_replicate]
            cases c1 with
            | zero =>
              rw [if_pos (by omega)]
              rw [hf, flatten_replicate_f f hf h0, flatten_replicate_f f hf h0, hf]
              ring
            | succ c2 =>
              rw [if_neg (by omega)]
              rw [ih (b1 + 1) (c2 + 2) (H ++ T) H (by omega)]
              rw [hf]
              ring
        · obtain ⟨d, rfl⟩ : ∃ d, b1 = a1 + d + 1 := ⟨b1 - a1 - 1, by omega⟩
          have hp : pairLoop [] (List.replicate (a1 + 1) H)
              (List.replicate (a1 + d + 1 + 1) T) =
              (List.replicate (a1 + 1) (H ++ T), [], List.replicate (d + 1) T) := by
            rw [pairLoop, List.length_replicate, pairLoopAux_replicate]
            rw [if_neg hba]
            simp only [List.nil_append]
            have hdd : a1 + d + 1 + 1 - (a1 + 1) = d + 1 := by omega
            rw [hdd]
          rw [genEuclidRecF, if_neg hne]
          simp only [hp, isEmpty_replicate_succ, Bool.false_and, Bool.false_eq_true,
            if_false, List.length_replicate]
          cases d with
          | zero =>
            rw [if_pos (by omega)]
            rw [hf, flatten_replicate_f f hf h0, flatten_replicate_f f hf h0, hf]
            ring
          | succ d1 =>
            rw [if_neg (by omega)]
            rw [ih (a1 + 1) (d1 + 2) (H ++ T) T (by omega)]
            rw [hf]
            ring

theorem genEuclidRecF_nil_head (fuel : ℕ) (h : 1 ≤ fuel) (tail : List (List ℕ)) :
    genEuclidRecF fuel [] tail = tail.flatten := by
  obtain ⟨g, rfl⟩ : ∃ g, fuel = g + 1 := ⟨fuel - 1, by omega⟩
  rw [genEuclidRecF]
  rw [if_pos (by simp)]

theorem genEuclidRecF_nil_tail (fuel a : ℕ) (H : List ℕ) (h : a + 2 ≤ fuel) :
    genEuclidRecF fuel (List.replicate a H) [] = (List.replicate a H).flatten := by
  obtain ⟨g, rfl⟩ : ∃ g, fuel = g + 1 := ⟨fuel - 1, by omega⟩
  cases a with
  | zero => simp [genEuclidRecF_nil_head]
  | succ a1 =>
    rw [genEuclidRecF]
    rw [if_neg (by simp [isEmpty_replicate_succ])]
    have hp : pairLoop [] (List.replicate (a1 + 1) H) [] =
        ([], List.replicate (a1 + 1) H, []) := rfl
    simp only [hp, List.isEmpty_nil, isEmpty_replicate_succ, Bool.not_false, Bool.true_and,
      if_true, List.length_replicate]
    cases a1 with
    | zero =>
      rw [if_pos (by omega)]
      simp
    | succ a2 =>
      rw [if_neg (by omega)]
      rw [genEuclidRecF_nil_head g (by omega)]

theorem flatten_replicate_singleton (n x : ℕ) :
    (List.replicate n [x]).flatten = List.replicate n x := by
  induction n with
  | zero => rfl
  | succ n ih => simp [List.replicate_succ, ih]

theorem gen_euclid_zero (s : ℕ) : gen_euclid 0 s = some (List.replicate s 0) := by
  unfold gen_euclid
  rw [if_neg (by omega)]
  simp only [List.replicate_zero, List.length_nil, List.length_replicate, Nat.sub_zero]
  rw [genEuclidRecF_nil_head _ (by omega)]
  rw [flatten_replicate_singleton]

theorem gen_euclid_full (s : ℕ) : gen_euclid s s = some (List.replicate s 1) := by
  unfold gen_euclid
  rw [if_neg (by omega)]
  simp only [Nat.sub_self, List.replicate_zero, List.length_replicate, List.length_nil]
  rw [genEuclidRecF_nil_tail _ s _ (by omega)]
  rw [flatten_replicate_singleton]

theorem gen_euclid_ok (p s : ℕ) (h : p ≤ s) :
    ∃ l, gen_euclid p s = some l ∧ l.length = s ∧ l.count 1 = p ∧ l.count 0 = s - p ∧
      ∀ x ∈ l, x = 0 ∨ x = 1 := by
  unfold gen_euclid
  rw [if_neg (by omega)]
  simp only [List.length_replicate]
  refine ⟨_, rfl, ?_, ?_, ?_, ?_⟩
  · have := genEuclidRecF_f (fun l => l.length) (fun x y => List.length_append x y) rfl
      (p + (s - p) + 2) p (s - p) [1] [0] (by omega)
    simp only [List.length_cons, List.length_nil] at this
    rw [this]
    omega
  · have := genEuclidRecF_f (fun l => l.count 1) (fun x y => List.count_append 1 x y)
      rfl (p + (s - p) + 2) p (s - p) [1] [0] (by omega)
    simp only at this
    rw [this]
    simp
  · have := genEuclidRecF_f (fun l => l.count 0) (fun x y => List.count_append 0 x y)
      rfl (p + (s - p) + 2) p (s - p) [1] [0] (by omega)
    simp only at this
    rw [this]
    simp
  · have hcp := genEuclidRecF_f (fun l => l.countP (fun x => decide (x = 0 ∨ x = 1)))
      (fun x y => List.countP_append _ x y) rfl
      (p + (s - p) + 2) p (s - p) [1] [0] (by omega)
    have hlen := genEuclidRecF_f (fun l => l.length) (fun x y => List.length_append x y) rfl
      (p + (s - p) + 2) p (s - p) [1] [0] (by omega)
    simp only [List.length_cons, List.length_nil] at hlen
    have h1 : (List.countP (fun x => decide (x = 0 ∨ x = 1)) [1]) = 1 := by decide
    have h0c : (List.countP (fun x => decide (x = 0 ∨ x = 1)) [0]) = 1 := by decide
    simp only [h1, h0c] at hcp
    intro x hx
    have hall := List.countP_eq_length.mp (by rw [hcp, hlen])
    have := hall x hx
    simpa using this

/-- C3: for all pulses p and steps s with p at most s, gen_euclid succeeds
and returns a binary sequence of length s with exactly p ones (all zeros
for p equal 0, all ones for p equal s); it returns exactly the required
pattern on each of the fourteen test inputs; and for p greater than s it
returns an error. -/
theorem c3_gen_euclid_correct :
    (∀ p s : ℕ, p ≤ s → ∃ l, gen_euclid p s = some l ∧ l.length = s ∧ l.count 1 = p ∧
      l.count 0 = s - p ∧ ∀ x ∈ l, x = 0 ∨ x = 1) ∧
    (∀ s : ℕ, gen_euclid 0 s = some (List.replicate s 0)) ∧
    (∀ s : ℕ, gen_euclid s s = some (List.replicate s 1)) ∧
    gen_euclid 0 0 = some [] ∧
    gen_euclid 0 1 = some [0] ∧
    gen_euclid 1 1 = some [1] ∧
    gen_euclid 1 2 = some [1, 0] ∧
    gen_euclid 0 3 = some [0, 0, 0] ∧
    gen_euclid 3 3 = some [1, 1, 1] ∧
    gen_euclid 2 3 = some [1, 0, 1] ∧
    gen_euclid 1 3 = some [1, 0, 0] ∧
    gen_euclid 1 4 = some [1, 0, 0, 0] ∧
    gen_euclid 3 4 = some [1, 0, 1, 1] ∧
    gen_euclid 2 5 = some [1, 0, 1, 0, 0] ∧
    gen_euclid 5 8 = some [1, 0, 1, 1, 0, 1, 1, 0] ∧
    gen_euclid 7 8 = some [1, 0, 1, 1, 1, 1, 1, 1] ∧
    gen_euclid 4 12 = some [1, 0, 0, 1, 0, 0, 1, 0, 0, 1, 0, 0] ∧
    gen_euclid 13 24 =
      some [1, 0, 1, 1, 0, 1, 0, 1, 0, 1, 0, 1, 0, 1, 1, 0, 1, 0, 1, 0, 1, 0, 1, 0] ∧
    (∀ p s : ℕ, s < p → gen_euclid p s = none) := by
  refine ⟨gen_euclid_ok, gen_euclid_zero, gen_euclid_full,
    by decide, by decide, by decide, by decide, by decide, by decide, by decide, by decide,
    by decide, by decide, by decide, by decide, by decide, by decide, by decide, ?_⟩
  intro p s hlt
  unfold gen_euclid
  rw [if_pos hlt]

/-- Witness for C3: the general correctness statement instantiated at the
concrete input pair of 5 pulses over 8 steps. -/
theorem c3_witness :
    5 ≤ 8 ∧ ∃ l, gen_euclid 5 8 = some l ∧ l.length = 8 ∧ l.count 1 = 5 ∧
      l.count 0 = 8 - 5 ∧ ∀ x ∈ l, x = 0 ∨ x = 1 :=
  ⟨by decide, c3_gen_euclid_correct.1 5 8 (by decide)⟩

/-! ## C7: incr_event_head -/

/-- Counterexample for C7: on the empty buffer incr_event_head is not a
no-op returning the unchanged head; the Rust body divides by the buffer
length and panics, modelled by none. -/
theorem c7_counterexample :
    incr_event_head ([] : List Event) 0 = none ∧
      incr_event_head ([] : List Event) 0 ≠ some 0 := by
  constructor
  · rfl
  · simp [incr_event_head]

/-- C7 as amended: on a non-empty buffer incr_event_head returns the head
plus one modulo the buffer length; on the empty buffer the Rust remainder
by zero panics, modelled by none, instead of being a no-op. -/
theorem c7_incr_event_head_amended (buffer : List Event) (head : ℕ) :
    (buffer ≠ [] → incr_event_head buffer head = some ((head + 1) % buffer.length)) ∧
    (buffer = [] → incr_event_head buffer head = none) := by
  constructor
  · intro hne
    unfold incr_event_head
    rw [if_neg (by simpa [List.length_eq_zero] using hne)]
  · intro he
    subst he
    rfl

/-- Witness for C7: the amended statement evaluated on a one-event buffer
with head 5, wrapping to head 0. -/
theorem c7_witness :
    ([({ e_type := EventType.Fill, bar_pos := 0 } : Event)] ≠ ([] : List Event)) ∧
      incr_event_head [({ e_type := EventType.Fill, bar_pos := 0 } : Event)] 5 = some 0 :=
  ⟨by simp, by
    have := (c7_incr_event_head_amended
      [({ e_type := EventType.Fill, bar_pos := 0 } : Event)] 5).1 (by simp)
    simpa using this⟩

/-! ## C9: the pitch jitter processor -/

/-- C9: the claim asserts the jittered pitch is saturated into the range 0
to 127 and never exceeds 127. The source casts the sum to u8, which
saturates at 255, not at 127: at input pitch 127 with sampled jitter 3/2
the emitted pitch is 128. -/
theorem c9_pitch_exceeds_127 :
    fx_process_pitch 127 (3 / 2) = 128 ∧ 127 < fx_process_pitch 127 (3 / 2) := by
  have he : fx_process_pitch 127 (3 / 2) = 128 := by
    unfold fx_process_pitch
    have hx : ((127 : ℕ) : ℚ) + 3 / 2 = 257 / 2 := by norm_num
    rw [hx]
    exact rustCastToU8_eq (257 / 2) 128 (by norm_num) (by norm_num) (by norm_num)
  exact ⟨he, by rw [he]; omega⟩

/-! ## C1: sync_event_head -/

/-- C1: evaluation of sync_event_head at the failing input. The buffer
holds events at bar positions 2 and 3, the loop length is 10 and the
window end is 1, so the first event with a bar position strictly greater
than the reduced window end 1 sits at index 0; the code nevertheless sets
the head to 1, because after the Err outcome of the binary search it scans
past the whole run of events equal to the anchor event instead of keeping
the anchor itself. -/
theorem c1_sync_event_head_overshoot :
    sync_event_head
      [({ e_type := EventType.MidiNoteOn
            { on_off := true, channel := 1, pitch := 60, velocity := 100 },
          bar_pos := 2 } : Event),
       ({ e_type := EventType.MidiNoteOn
            { on_off := true, channel := 1, pitch := 60, velocity := 100 },
          bar_pos := 3 } : Event)] 10 1 = 1 ∧
    List.findIdx (fun e => decide ((1 : ℚ) < e.bar_pos))
      [({ e_type := EventType.MidiNoteOn
            { on_off := true, channel := 1, pitch := 60, velocity := 100 },
          bar_pos := 2 } : Event),
       ({ e_type := EventType.MidiNoteOn
            { on_off := true, channel := 1, pitch := 60, velocity := 100 },
          bar_pos := 3 } : Event)] = 0 := by
  have hrem : rustRem (1 : ℚ) 10 = 1 := by
    have := rustRem_eq_of_between 1 10 0 (by norm_num) (by norm_num) (by norm_num)
      (by norm_num)
    simpa using this
  have hcast : rustCastToU32 (1 : ℚ) = 1 :=
    rustCastToU32_eq 1 1 (by norm_num) (by norm_num) (by norm_num)
  have hk2 : rustCastToU32 ((2 : ℚ) * 1000) = 2000 :=
    rustCastToU32_eq _ 2000 (by norm_num) (by norm_num) (by norm_num)
  have hk3 : rustCastToU32 ((3 : ℚ) * 1000) = 3000 :=
    rustCastToU32_eq _ 3000 (by norm_num) (by norm_num) (by norm_num)
  constructor
  · unfold sync_event_head
    simp only [sortKey, List.map_cons, List.map_nil]
    rw [hrem, hcast, hk2, hk3]
    decide
  · decide

/-! ## C2: event_in_cycle -/

/-- Counterexample for C2: with loop length 10, the consecutive windows
from 8 to 12 and from 12 to 19 both report the bar position 17/2 as in
cycle, so consecutive windows do double-count a position when their
combined span exceeds the loop length. -/
theorem c2_counterexample :
    SeqInternal.event_in_cycle
      { status := SeqInternalStatus.Playing, j_window_time_start := 8,
        j_window_time_end := 12, curr_bar := 0 } (17 / 2) 10 = true ∧
    SeqInternal.event_in_cycle
      { status := SeqInternalStatus.Playing, j_window_time_start := 12,
        j_window_time_end := 19, curr_bar := 0 } (17 / 2) 10 = true ∧
    (0 : ℚ) ≤ 17 / 2 ∧ (17 / 2 : ℚ) < 10 ∧
    (12 : ℚ) - 8 < 10 ∧ (19 : ℚ) - 12 < 10 := by
  have h8 : rustRem (8 : ℚ) 10 = 8 := by
    have := rustRem_eq_of_between 8 10 0 (by norm_num) (by norm_num) (by norm_num)
      (by norm_num)
    simpa using this
  have h12 : rustRem (12 : ℚ) 10 = 2 := by
    have := rustRem_eq_of_between 12 10 1 (by norm_num) (by norm_num) (by norm_num)
      (by norm_num)
    rw [this]
    norm_num
  have h19 : rustRem (19 : ℚ) 10 = 9 := by
    have := rustRem_eq_of_between 19 10 1 (by norm_num) (by norm_num) (by norm_num)
      (by norm_num)
    rw [this]
    norm_num
  refine ⟨?_, ?_, by norm_num, by norm_num, by norm_num, by norm_num⟩
  · unfold SeqInternal.event_in_cycle
    simp only [h8, h12]
    rw [if_neg (by norm_num)]
    simp only [decide_eq_true_eq]
    norm_num
  · unfold SeqInternal.event_in_cycle
    simp only [h12, h19]
    rw [if_pos (by norm_num)]
    simp only [decide_eq_true_eq]
    norm_num

/-- C2 as amended: event_in_cycle computes exactly the claimed window
formula, and two consecutive tick windows of positive length never
double-count a position provided they start at a nonnegative time and
their combined span is at most the loop length. -/
theorem c2_event_in_cycle_amended :
    (∀ (si : SeqInternal) (pos loop_len : ℚ),
      si.event_in_cycle pos loop_len = true ↔
        (if rustRem si.j_window_time_start loop_len < rustRem si.j_window_time_end loop_len
         then rustRem si.j_window_time_start loop_len ≤ pos ∧
           pos < rustRem si.j_window_time_end loop_len
         else rustRem si.j_window_time_start loop_len ≤ pos ∨
           pos < rustRem si.j_window_time_end loop_len)) ∧
    (∀ (a b c loop_len pos : ℚ) (s1 s2 : SeqInternalStatus) (n1 n2 : ℕ),
      0 ≤ a → a < b → b < c → c - a ≤ loop_len →
      ¬ (SeqInternal.event_in_cycle
          { status := s1, j_window_time_start := a, j_window_time_end := b, curr_bar := n1 }
          pos loop_len = true ∧
         SeqInternal.event_in_cycle
          { status := s2, j_window_time_start := b, j_window_time_end := c, curr_bar := n2 }
          pos loop_len = true)) := by
  constructor
  · intro si pos loop_len
    unfold SeqInternal.event_in_cycle
    split_ifs with h
    · rw [if_pos h]
      simp
    · rw [if_neg h]
      simp
  · intro a b c L pos s1 s2 n1 n2 ha hab hbc hca
    have hL : 0 < L := lt_of_lt_of_le (by linarith) hca
    have hb0 : 0 ≤ b := by linarith
    have hc0 : 0 ≤ c := by linarith
    have hAv := rustRem_formula a L ha hL
    have hBv := rustRem_formula b L hb0 hL
    have hCv := rustRem_formula c L hc0 hL
    have hA0 := rustRem_nonneg a L ha hL
    have hB0 := rustRem_nonneg b L hb0 hL
    have hC0 := rustRem_nonneg c L hc0 hL
    have hAlt := rustRem_lt a L ha hL
    have hBlt := rustRem_lt b L hb0 hL
    have hClt := rustRem_lt c L hc0 hL
    have hdiv1 : (L + a) / L = a / L + 1 := by
      rw [add_div, div_self hL.ne']
      ring
    have hdiv2 : (L + b) / L = b / L + 1 := by
      rw [add_div, div_self hL.ne']
      ring
    have hab1 : ⌊a / L⌋ ≤ ⌊b / L⌋ :=
      Int.floor_le_floor ((div_le_div_iff_of_pos_right hL).mpr hab.le)
    have hbc1 : ⌊b / L⌋ ≤ ⌊c / L⌋ :=
      Int.floor_le_floor ((div_le_div_iff_of_pos_right hL).mpr hbc.le)
    have hab2 : ⌊b / L⌋ ≤ ⌊a / L⌋ + 1 := by
      have hblt : b < L + a := by linarith
      have h1 : b / L < a / L + 1 := by
        rw [← hdiv1]
        exact (div_lt_div_iff_of_pos_right hL).mpr hblt
      have h2 : a / L < (⌊a / L⌋ : ℚ) + 1 := Int.lt_floor_add_one (a / L)
      have h3 : ⌊b / L⌋ < ⌊a / L⌋ + 2 := by
        apply Int.floor_lt.mpr
        push_cast
        linarith
      omega
    have hbc2 : ⌊c / L⌋ ≤ ⌊b / L⌋ + 1 := by
      have hclt : c < L + b := by linarith
      have h1 : c / L < b / L + 1 := by
        rw [← hdiv2]
        exact (div_lt_div_iff_of_pos_right hL).mpr hclt
      have h2 : b / L < (⌊b / L⌋ : ℚ) + 1 := Int.lt_floor_add_one (b / L)
      have h3 : ⌊c / L⌋ < ⌊b / L⌋ + 2 := by
        apply Int.floor_lt.mpr
        push_cast
        linarith
      omega
    rintro ⟨hm1, hm2⟩
    simp only [SeqInternal.event_in_cycle] at hm1 hm2
    have hm1d : (rustRem a L ≤ pos ∧ pos < rustRem b L) ∨
        (rustRem b L ≤ rustRem a L ∧ (rustRem a L ≤ pos ∨ pos < rustRem b L)) := by
      by_cases hw : rustRem a L < rustRem b L
      · rw [if_pos hw] at hm1
        exact Or.inl (by simpa using hm1)
      · rw [if_neg hw] at hm1
        exact Or.inr ⟨not_lt.mp hw, by simpa using hm1⟩
    have hm2d : (rustRem b L ≤ pos ∧ pos < rustRem c L) ∨
        (rustRem c L ≤ rustRem b L ∧ (rustRem b L ≤ pos ∨ pos < rustRem c L)) := by
      by_cases hw : rustRem b L < rustRem c L
      · rw [if_pos hw] at hm2
        exact Or.inl (by simpa using hm2)
      · rw [if_neg hw] at hm2
        exact Or.inr ⟨not_lt.mp hw, by simpa using hm2⟩
    have hDab : ⌊b / L⌋ = ⌊a / L⌋ ∨ ⌊b / L⌋ = ⌊a / L⌋ + 1 := by omega
    have hDbc : ⌊c / L⌋ = ⌊b / L⌋ ∨ ⌊c / L⌋ = ⌊b / L⌋ + 1 := by omega
    rcases hDab with hD1 | hD1 <;> rcases hDbc with hD2 | hD2 <;>
        (rw [hD2] at hCv; rw [hD1] at hBv hCv; try push_cast at hBv hCv) <;>
        rcases hm1d with ⟨h1, h2⟩ | ⟨h1, h2 | h2⟩ <;>
        rcases hm2d with ⟨h3, h4⟩ | ⟨h3, h4 | h4⟩ <;>
        linarith

/-- Witness for C2: the amended no-double-count statement instantiated on
the consecutive windows from 0 to 1 and from 1 to 2 with loop length 10 at
bar position 5. -/
theorem c2_witness :
    (0 : ℚ) ≤ 0 ∧ (0 : ℚ) < 1 ∧ (1 : ℚ) < 2 ∧ (2 : ℚ) - 0 ≤ 10 ∧
    ¬ (SeqInternal.event_in_cycle
        { status := SeqInternalStatus.Playing, j_window_time_start := 0,
          j_window_time_end := 1, curr_bar := 0 } 5 10 = true ∧
       SeqInternal.event_in_cycle
        { status := SeqInternalStatus.Playing, j_window_time_start := 1,
          j_window_time_end := 2, curr_bar := 0 } 5 10 = true) :=
  ⟨le_refl 0, by norm_num, by norm_num, by norm_num,
    c2_event_in_cycle_amended.2 0 1 2 10 5 SeqInternalStatus.Playing
      SeqInternalStatus.Playing 0 0 (le_refl 0) (by norm_num) (by norm_num) (by norm_num)⟩

/-! ## C4 supporting lemmas -/

theorem rustRem_zero_right (x : ℚ) : rustRem x 0 = x := by
  unfold rustRem
  ring

theorem rustCastToU32_of_neg {x : ℚ} (h : x < 0) : rustCastToU32 x = 0 := if_pos h

theorem mem_sort_by_key {e : Event} {l : List Event} : e ∈ sort_by_key l ↔ e ∈ l := by
  unfold sort_by_key
  exact List.mem_insertionSort key_le

theorem sort_by_key_sorted (l : List Event) : (sort_by_key l).Sorted key_le :=
  List.sorted_insertionSort key_le l

theorem gen_rand_events_range (loop_length : ℚ) (midi_ch : ℕ) (hL : 0 < loop_length) :
    ∀ (draws : List RandDraw) (offset : ℚ), 0 ≤ offset → offset < loop_length →
      (∀ d ∈ draws, 0 ≤ d.note_len ∧ 0 ≤ d.time_incr) →
      ∀ e ∈ gen_rand_events loop_length midi_ch draws offset,
        0 ≤ e.bar_pos ∧ e.bar_pos < loop_length := by
  intro draws
  induction draws with
  | nil =>
    intro offset _ _ _ e he
    simp [gen_rand_events] at he
  | cons d rest ih =>
    intro offset h0 hlt hd e he
    have hdr := hd d (by simp)
    simp only [gen_rand_events, List.mem_cons] at he
    rcases he with he | he | he
    · subst he
      exact ⟨h0, hlt⟩
    · subst he
      constructor
      · exact rustRem_nonneg _ _ (by linarith [hdr.1]) hL
      · exact rustRem_lt _ _ (by linarith [hdr.1]) hL
    · exact ih (rustRem (offset + d.time_incr) loop_length)
        (rustRem_nonneg _ _ (by linarith [hdr.2]) hL)
        (rustRem_lt _ _ (by linarith [hdr.2]) hL)
        (fun d2 hd2 => hd d2 (by simp [hd2])) e he

theorem gen_euclid_events_range (loop_length step_len : ℚ) (midi_ch pitch : ℕ)
    (ed : ℕ → ℚ × ℚ) (hL : 0 < loop_length) (hstep : 0 < step_len)
    (hed : ∀ j, 0 ≤ (ed j).2) :
    ∀ (rhythm : List ℕ) (k : ℕ) (off : ℚ), 0 ≤ off →
      off + step_len * rhythm.length ≤ loop_length →
      ∀ e ∈ gen_euclid_events loop_length step_len midi_ch pitch ed rhythm k off,
        0 ≤ e.bar_pos ∧ e.bar_pos < loop_length := by
  intro rhythm
  induction rhythm with
  | nil =>
    intro k off _ _ e he
    simp [gen_euclid_events] at he
  | cons i rest ih =>
    intro k off h0 hbound e he
    have hlen : (List.length (i :: rest) : ℚ) = (rest.length : ℚ) + 1 := by
      push_cast [List.length_cons]
      ring
    have hoff_lt : off < loop_length := by
      have hnn : 0 ≤ step_len * (rest.length : ℚ) :=
        mul_nonneg hstep.le (by positivity)
      nlinarith [hbound, hlen]
    have hrec : (off + step_len) + step_len * (rest.length : ℚ) ≤ loop_length := by
      have := hbound
      rw [hlen] at this
      nlinarith [this]
    simp only [gen_euclid_events] at he
    by_cases hi : i = 0
    · rw [if_pos hi] at he
      exact ih (k + 1) (off + step_len) (by linarith) hrec e he
    · rw [if_neg hi] at he
      simp only [List.mem_cons] at he
      rcases he with he | he | he
      · subst he
        exact ⟨h0, hoff_lt⟩
      · subst he
        constructor
        · exact rustRem_nonneg _ _ (by linarith [hed k]) hL
        · exact rustRem_lt _ _ (by linarith [hed k]) hL
      · exact ih (k + 1) (off + step_len) (by linarith) hrec e he

theorem gen_rand_midi_vec_range (p : BaseSeqParams) (rd : ℕ → RandDraw)
    (hL : 0 < p.loop_length) (hrd : ∀ i, 0 ≤ (rd i).note_len ∧ 0 ≤ (rd i).time_incr) :
    ∀ e ∈ gen_rand_midi_vec p rd, 0 ≤ e.bar_pos ∧ e.bar_pos < p.loop_length := by
  unfold gen_rand_midi_vec
  match hty : p.ty with
  | BaseSeqType.Random nb =>
    exact gen_rand_events_range p.loop_length p.midi_ch hL _ 0 (le_refl 0) hL
      (fun d hd => by
        obtain ⟨i, _, rfl⟩ := List.mem_map.mp hd
        exact hrd i)
  | BaseSeqType.Euclid pu st =>
    intro e he
    simp at he

theorem gen_euclid_midi_vec_range (p : BaseSeqParams) (ed : ℕ → ℚ × ℚ)
    (l : List Event) (hL : 0 < p.loop_length) (hed : ∀ j, 0 ≤ (ed j).2)
    (hok : gen_euclid_midi_vec p ed = Except.ok l) :
    ∀ e ∈ l, 0 ≤ e.bar_pos ∧ e.bar_pos < p.loop_length := by
  unfold gen_euclid_midi_vec at hok
  cases hty : p.ty with
  | Random nb =>
    rw [hty] at hok
    simp only [Except.ok.injEq] at hok
    subst hok
    intro e he
    simp at he
  | Euclid pu st =>
    rw [hty] at hok
    simp only [] at hok
    by_cases hdiv : rustRem p.loop_length (st : ℚ) ≠ 0
    · rw [if_pos hdiv] at hok
      simp only [Except.ok.injEq] at hok
      subst hok
      intro e he
      simp at he
    · rw [if_neg hdiv] at hok
      push_neg at hdiv
      have hst : st ≠ 0 := by
        intro h0
        subst h0
        rw [Nat.cast_zero, rustRem_zero_right] at hdiv
        exact absurd hdiv (by linarith)
      have hstq : 0 < (st : ℚ) := by
        have : 0 < st := Nat.pos_of_ne_zero hst
        exact_mod_cast this
      cases hge : gen_euclid pu st with
      | none =>
        rw [hge] at hok
        exact absurd hok (by simp)
      | some rhythm =>
        rw [hge] at hok
        simp only [Except.ok.injEq] at hok
        subst hok
        have hple : pu ≤ st := by
          by_contra hgt
          have hnone : gen_euclid pu st = none := by
            unfold gen_euclid
            rw [if_pos (by omega)]
          rw [hnone] at hge
          exact absurd hge (by simp)
        have hlen : rhythm.length = st := by
          obtain ⟨l2, heq, hlen2, _⟩ := gen_euclid_ok pu st hple
          rw [heq] at hge
          injection hge with hge2
          rw [hge2] at hlen2
          exact hlen2
        apply gen_euclid_events_range p.loop_length (p.loop_length / (st : ℚ))
          p.midi_ch (note_to_midi_pitch p.root_note) ed hL
          (div_pos hL hstq) hed rhythm 0 0 (le_refl 0)
        rw [hlen]
        rw [zero_add, div_mul_cancel₀ _ hstq.ne']

theorem transpose_map_bar_pos (b : BaseSeq) (r : Note) :
    (b.transpose r).event_buffer.map (fun e => e.bar_pos) =
      b.event_buffer.map (fun e => e.bar_pos) := by
  unfold BaseSeq.transpose
  simp only [List.map_map]
  apply List.map_congr_left
  intro e _
  cases he : e.e_type <;> simp [he]

theorem transpose_sortKey (b : BaseSeq) (r : Note) (e : Event) :
    sortKey ((fun e =>
      match e.e_type with
      | EventType.MidiNoteOn n =>
        let n2 := { n with pitch :=
          (clampInt ((n.pitch : ℤ) +
            ((note_to_midi_pitch r : ℤ) - (note_to_midi_pitch b.params.root_note : ℤ)))
            0 127).toNat }
        { e with e_type := EventType.MidiNoteOn n2 }
      | EventType.MidiNoteOff n =>
        let n2 := { n with pitch :=
          (clampInt ((n.pitch : ℤ) +
            ((note_to_midi_pitch r : ℤ) - (note_to_midi_pitch b.params.root_note : ℤ)))
            0 127).toNat }
        { e with e_type := EventType.MidiNoteOff n2 }
      | EventType.Fill => e) e) = sortKey e := by
  cases he : e.e_type <;> simp [he, sortKey]

theorem transpose_sorted (b : BaseSeq) (r : Note) (h : b.event_buffer.Sorted key_le) :
    (b.transpose r).event_buffer.Sorted key_le := by
  unfold BaseSeq.transpose
  apply List.Pairwise.map _ _ h
  intro x y hxy
  unfold key_le at hxy ⊢
  rw [transpose_sortKey b r x, transpose_sortKey b r y]
  exact hxy

theorem change_note_len_sorted (b : BaseSeq) (t : ℚ) (si : SeqInternal) :
    ((b.change_note_len t si).event_buffer).Sorted key_le := by
  unfold BaseSeq.change_note_len
  exact sort_by_key_sorted _

theorem change_note_len_range (b : BaseSeq) (t : ℚ) (si : SeqInternal)
    (hL : 0 < b.params.loop_length) (ht : b.params.note_len_avg ≤ t)
    (hbuf : ∀ e ∈ b.event_buffer, 0 ≤ e.bar_pos ∧ e.bar_pos < b.params.loop_length) :
    ∀ e ∈ (b.change_note_len t si).event_buffer,
      0 ≤ e.bar_pos ∧ e.bar_pos < b.params.loop_length := by
  intro e he
  unfold BaseSeq.change_note_len at he
  simp only at he
  rw [mem_sort_by_key] at he
  obtain ⟨x, hx, rfl⟩ := List.mem_map.mp he
  have hxr := hbuf x hx
  cases hxt : x.e_type with
  | MidiNoteOn n =>
    by_cases hoo : n.on_off = false
    · simp only [hxt, hoo, if_pos]
      constructor
      · exact rustRem_nonneg _ _ (by linarith [hxr.1]) hL
      · exact rustRem_lt _ _ (by linarith [hxr.1]) hL
    · simp only [hxt, hoo, if_neg, if_false]
      exact hxr
  | MidiNoteOff n =>
    by_cases hoo : n.on_off = false
    · simp only [hxt, hoo, if_pos]
      constructor
      · exact rustRem_nonneg _ _ (by linarith [hxr.1]) hL
      · exact rustRem_lt _ _ (by linarith [hxr.1]) hL
    · simp only [hxt, hoo, if_neg, if_false]
      exact hxr
  | Fill =>
    simp only [hxt]
    exact hxr

theorem gen_fill_sorted (b : BaseSeq) (rd : ℕ → RandDraw) (ed : ℕ → ℚ × ℚ)
    (si : SeqInternal) (b2 : BaseSeq) (h : BaseSeq.gen_fill b rd ed si = Except.ok b2) :
    b2.event_buffer.Sorted key_le := by
  unfold BaseSeq.gen_fill at h
  cases hge : gen_fill_events b.params rd ed with
  | error e =>
    rw [hge] at h
    exact absurd h (by simp)
  | ok events =>
    rw [hge] at h
    simp only [Except.ok.injEq] at h
    subst h
    exact sort_by_key_sorted _

theorem gen_fill_range (b : BaseSeq) (rd : ℕ → RandDraw) (ed : ℕ → ℚ × ℚ)
    (si : SeqInternal) (b2 : BaseSeq) (hL : 0 < b.params.loop_length)
    (hrd : ∀ i, 0 ≤ (rd i).note_len ∧ 0 ≤ (rd i).time_incr)
    (hed : ∀ j, 0 ≤ (ed j).2)
    (h : BaseSeq.gen_fill b rd ed si = Except.ok b2) :
    ∀ e ∈ b2.event_buffer, 0 ≤ e.bar_pos ∧ e.bar_pos < b.params.loop_length := by
  unfold BaseSeq.gen_fill at h
  cases hge : gen_fill_events b.params rd ed with
  | error e =>
    rw [hge] at h
    exact absurd h (by simp)
  | ok events =>
    rw [hge] at h
    simp only [Except.ok.injEq] at h
    subst h
    intro e he
    simp only at he
    rw [mem_sort_by_key] at he
    unfold gen_fill_events at hge
    cases hty : b.params.ty with
    | Random nb =>
      rw [hty] at hge
      simp only [Except.ok.injEq] at hge
      subst hge
      exact gen_rand_midi_vec_range b.params rd hL hrd e he
    | Euclid pu st =>
      rw [hty] at hge
      simp only at hge
      exact gen_euclid_midi_vec_range b.params ed events hL hed hge e he

/-- C4 as amended: after every mutator the event buffer is sorted by the
scaled integer key of the bar position (the key the source sorts by), not
necessarily by the raw bar position; generated and shifted positions stay
inside the range 0 to loop_length provided the sampled note lengths and
time increments are nonnegative and change_note_len does not shrink the
average note length; transpose does not touch bar positions at all. -/
theorem c4_buffer_invariants :
    (∀ (b : BaseSeq) (rd : ℕ → RandDraw) (ed : ℕ → ℚ × ℚ) (si : SeqInternal) (b2 : BaseSeq),
      BaseSeq.gen_fill b rd ed si = Except.ok b2 → b2.event_buffer.Sorted key_le) ∧
    (∀ (b : BaseSeq) (t : ℚ) (si : SeqInternal),
      ((b.change_note_len t si).event_buffer).Sorted key_le) ∧
    (∀ (b : BaseSeq) (n : ℕ) (rd : ℕ → RandDraw) (ed : ℕ → ℚ × ℚ) (si : SeqInternal)
      (b2 : BaseSeq), BaseSeq.set_nb_events b n rd ed si = Except.ok b2 →
        b2.event_buffer.Sorted key_le) ∧
    (∀ (s : Sequencer) (p : BaseSeqParams) (rd : ℕ → RandDraw) (ed : ℕ → ℚ × ℚ)
      (s2 : Sequencer), Sequencer.add_base_seq s p rd ed = Except.ok s2 →
        ∀ b2 ∈ s2.base_seqs, b2 ∈ s.base_seqs ∨ b2.event_buffer.Sorted key_le) ∧
    (∀ (b : BaseSeq) (r : Note),
      (b.transpose r).event_buffer.map (fun e => e.bar_pos) =
        b.event_buffer.map (fun e => e.bar_pos)) ∧
    (∀ (b : BaseSeq) (r : Note), b.event_buffer.Sorted key_le →
      (b.transpose r).event_buffer.Sorted key_le) ∧
    (∀ (b : BaseSeq) (rd : ℕ → RandDraw) (ed : ℕ → ℚ × ℚ) (si : SeqInternal) (b2 : BaseSeq),
      0 < b.params.loop_length →
      (∀ i, 0 ≤ (rd i).note_len ∧ 0 ≤ (rd i).time_incr) →
      (∀ j, 0 ≤ (ed j).2) →
      BaseSeq.gen_fill b rd ed si = Except.ok b2 →
      ∀ e ∈ b2.event_buffer, 0 ≤ e.bar_pos ∧ e.bar_pos < b.params.loop_length) ∧
    (∀ (b : BaseSeq) (t : ℚ) (si : SeqInternal),
      0 < b.params.loop_length → b.params.note_len_avg ≤ t →
      (∀ e ∈ b.event_buffer, 0 ≤ e.bar_pos ∧ e.bar_pos < b.params.loop_length) →
      ∀ e ∈ (b.change_note_len t si).event_buffer,
        0 ≤ e.bar_pos ∧ e.bar_pos < b.params.loop_length) := by
  refine ⟨gen_fill_sorted, change_note_len_sorted, ?_, ?_, transpose_map_bar_pos,
    transpose_sorted, gen_fill_range, change_note_len_range⟩
  · intro b n rd ed si b2 h
    unfold BaseSeq.set_nb_events at h
    cases hty : b.params.ty with
    | Random nb =>
      rw [hty] at h
      exact gen_fill_sorted _ rd ed si b2 h
    | Euclid pu st =>
      rw [hty] at h
      exact absurd h (by simp)
  · intro s p rd ed s2 h b2 hb2
    unfold Sequencer.add_base_seq at h
    cases hnf : BaseSeq.new_fill p s.params.incr rd ed s.internal with
    | error e =>
      rw [hnf] at h
      exact absurd h (by simp)
    | ok bnew =>
      rw [hnf] at h
      simp only [Except.ok.injEq] at h
      subst h
      simp only [List.mem_append, List.mem_singleton] at hb2
      rcases hb2 with hb2 | hb2
      · exact Or.inl hb2
      · subst hb2
        exact Or.inr (gen_fill_sorted _ rd ed s.internal b2 hnf)

/-- Counterexample for C4, first half: on the concrete draws of c4_draws,
gen_fill produces a buffer that is not sorted by the raw bar position (the
source sorts by the truncated integer key, and the note-off at 2001/4000
keeps its place before the note-on at 1/2 because both share key 500);
second half: a negative sampled note length puts a note-off at the
negative bar position -1/2, violating the claimed position range. -/
theorem c4_counterexample :
    ¬ (bufferOf (BaseSeq.gen_fill c4_base c4_draws c_edraws c_internal)).Sorted
        (fun e1 e2 => e1.bar_pos ≤ e2.bar_pos) ∧
    (bufferOf (BaseSeq.gen_fill c4_base_neg c4_draws_neg c_edraws c_internal)).any
        (fun e => decide (e.bar_pos < 0)) = true := by
  have hv : rustCastToU8 (100 : ℚ) = 100 :=
    rustCastToU8_eq 100 100 (by norm_num) (by norm_num) (by norm_num)
  have ha : rustRem (2001 / 4000 : ℚ) 4 = 2001 / 4000 := by
    have := rustRem_eq_of_between (2001 / 4000) 4 0 (by norm_num) (by norm_num) (by norm_num)
      (by norm_num)
    simpa using this
  have hb : rustRem (1 / 2 : ℚ) 4 = 1 / 2 := by
    have := rustRem_eq_of_between (1 / 2) 4 0 (by norm_num) (by norm_num) (by norm_num)
      (by norm_num)
    simpa using this
  have hc : rustRem (3 / 2 : ℚ) 4 = 3 / 2 := by
    have := rustRem_eq_of_between (3 / 2) 4 0 (by norm_num) (by norm_num) (by norm_num)
      (by norm_num)
    simpa using this
  have hk0 : sortKey (mk_on 1 60 100 0) = 0 := by
    show rustCastToU32 ((0 : ℚ) * 1000) = 0
    exact rustCastToU32_eq _ 0 (by norm_num) (by norm_num) (by norm_num)
  have hk1 : sortKey (mk_off 1 60 100 (2001 / 4000)) = 500 := by
    show rustCastToU32 ((2001 / 4000 : ℚ) * 1000) = 500
    exact rustCastToU32_eq _ 500 (by norm_num) (by norm_num) (by norm_num)
  have hk2 : sortKey (mk_on 1 60 100 (1 / 2)) = 500 := by
    show rustCastToU32 ((1 / 2 : ℚ) * 1000) = 500
    exact rustCastToU32_eq _ 500 (by norm_num) (by norm_num) (by norm_num)
  have hk3 : sortKey (mk_off 1 60 100 (3 / 2)) = 1500 := by
    show rustCastToU32 ((3 / 2 : ℚ) * 1000) = 1500
    exact rustCastToU32_eq _ 1500 (by norm_num) (by norm_num) (by norm_num)
  have hev : gen_rand_midi_vec c4_base.params c4_draws =
      [mk_on 1 60 100 0, mk_off 1 60 100 (2001 / 4000),
       mk_on 1 60 100 (1 / 2), mk_off 1 60 100 (3 / 2)] := by
    unfold gen_rand_midi_vec c4_base
    simp only [List.range_succ, List.range_zero, List.nil_append, List.map_append,
      List.map_cons, List.map_nil, List.cons_append, gen_rand_events, c4_draws]
    norm_num [ha, hb, hc, hv, mk_on, mk_off]
  have hsorted : ([mk_on 1 60 100 0, mk_off 1 60 100 (2001 / 4000),
      mk_on 1 60 100 (1 / 2), mk_off 1 60 100 (3 / 2)] : List Event).Sorted key_le := by
    simp only [List.sorted_cons, List.mem_cons, List.mem_singleton, List.not_mem_nil,
      forall_eq_or_imp, forall_eq, List.sorted_nil, and_true, IsEmpty.forall_iff,
      implies_true, List.sorted_singleton]
    unfold key_le
    simp only [hk0, hk1, hk2, hk3]
    omega
  have hbuf : bufferOf (BaseSeq.gen_fill c4_base c4_draws c_edraws c_internal) =
      [mk_on 1 60 100 0, mk_off 1 60 100 (2001 / 4000),
       mk_on 1 60 100 (1 / 2), mk_off 1 60 100 (3 / 2)] := by
    unfold BaseSeq.gen_fill
    have hge : gen_fill_events c4_base.params c4_draws c_edraws =
        Except.ok (gen_rand_midi_vec c4_base.params c4_draws) := by
      unfold gen_fill_events c4_base
      simp
    rw [hge, hev]
    unfold bufferOf sort_by_key
    simp only []
    rw [List.Sorted.insertionSort_eq hsorted]
  constructor
  · rw [hbuf]
    intro hs
    have h2 := (List.sorted_cons.mp hs).2
    have h3 := (List.sorted_cons.mp h2).1 _ (List.mem_cons_self _ _)
    simp only [mk_on, mk_off] at h3
    norm_num at h3
  · have hneg : rustRem (-(1 / 2) : ℚ) 4 = -(1 / 2) :=
      rustRem_of_neg_gt _ _ (by norm_num) (by norm_num) (by norm_num)
    have hevn : gen_rand_midi_vec c4_base_neg.params c4_draws_neg =
        [mk_on 1 60 100 0, mk_off 1 60 100 (-(1 / 2))] := by
      unfold gen_rand_midi_vec c4_base_neg c4_base
      simp only [List.range_succ, List.range_zero, List.nil_append, List.map_append,
        List.map_cons, List.map_nil, List.cons_append, gen_rand_events, c4_draws_neg]
      norm_num [hneg, hv, mk_on, mk_off]
    have hkneg : sortKey (mk_off 1 60 100 (-(1 / 2))) = 0 := by
      show rustCastToU32 ((-(1 / 2) : ℚ) * 1000) = 0
      exact rustCastToU32_of_neg (by norm_num)
    have hsortedn : ([mk_on 1 60 100 0,
        mk_off 1 60 100 (-(1 / 2))] : List Event).Sorted key_le := by
      simp only [List.sorted_cons, List.mem_cons, List.mem_singleton, List.not_mem_nil,
        forall_eq_or_imp, forall_eq, List.sorted_nil, and_true, IsEmpty.forall_iff,
        implies_true, List.sorted_singleton]
      unfold key_le
      simp only [hk0, hkneg]
      omega
    have hbufn : bufferOf (BaseSeq.gen_fill c4_base_neg c4_draws_neg c_edraws c_internal) =
        [mk_on 1 60 100 0, mk_off 1 60 100 (-(1 / 2))] := by
      unfold BaseSeq.gen_fill
      have hge : gen_fill_events c4_base_neg.params c4_draws_neg c_edraws =
          Except.ok (gen_rand_midi_vec c4_base_neg.params c4_draws_neg) := by
        unfold gen_fill_events c4_base_neg c4_base
        simp
      rw [hge, hevn]
      unfold bufferOf sort_by_key
      simp only []
      rw [List.Sorted.insertionSort_eq hsortedn]
    rw [hbufn]
    simp only [List.any_cons, List.any_nil, Bool.or_eq_true, decide_eq_true_eq, mk_on, mk_off]
    norm_num

/-- Witness for C4: the range statement for change_note_len instantiated on
the concrete base sequence c4_base (empty buffer, loop length 4, average
note length 1/2) with target note length 1. -/
theorem c4_witness :
    (0 : ℚ) < 4 ∧ (1 / 2 : ℚ) ≤ 1 ∧
    (∀ e ∈ (BaseSeq.change_note_len c4_base 1 c_internal).event_buffer,
      0 ≤ e.bar_pos ∧ e.bar_pos < 4) :=
  ⟨by norm_num, by norm_num,
    c4_buffer_invariants.2.2.2.2.2.2.2 c4_base 1 c_internal (by norm_num [c4_base])
      (by norm_num [c4_base]) (by intro e he; simp [c4_base] at he)⟩

/-! ## C8: failing mutators -/

theorem find?_modifyFirst (l : List BaseSeq) (id : ℕ) (f : BaseSeq → BaseSeq)
    (hf : ∀ b, (f b).id = b.id) (b : BaseSeq)
    (h : l.find? (fun x => x.id == id) = some b) :
    (modifyFirst l id f).find? (fun x => x.id == id) = some (f b) := by
  induction l with
  | nil => simp at h
  | cons c rest ih =>
    by_cases hc : c.id = id
    · rw [List.find?_cons_of_pos _ (by simp [hc])] at h
      injection h with hcb
      subst hcb
      unfold modifyFirst
      rw [if_pos hc]
      rw [List.find?_cons_of_pos _ (by simp [hf, hc])]
    · rw [List.find?_cons_of_neg _ (by simp [hc])] at h
      unfold modifyFirst
      rw [if_neg hc]
      rw [List.find?_cons_of_neg _ (by simp [hc])]
      exact ih h

/-- Counterexample for C8: change_loop_len accepts the non-positive target
loop length -1 and overwrites the loop length with it, instead of rejecting
it and leaving the state unchanged. -/
theorem c8_counterexample :
    (Sequencer.change_loop_len c8_seq 0 (-1)).1 = Except.ok () ∧
    ((Sequencer.change_loop_len c8_seq 0 (-1)).2.base_seqs.map
      (fun b => b.params.loop_length)) = [-1] ∧
    ¬ ((0 : ℚ) < -1) := by
  refine ⟨rfl, rfl, by norm_num⟩

/-- C8 as amended: set_nb_events on a euclidean base sequence fails and
returns the state unchanged, and an unknown id makes either mutator fail
with the state unchanged; but change_loop_len performs no validation of the
target value: on any known id it succeeds and overwrites the loop length
with the target, whatever its sign, leaving every other field unchanged. -/
theorem c8_mutators_amended :
    (∀ (s : Sequencer) (id n : ℕ) (rd : ℕ → RandDraw) (ed : ℕ → ℚ × ℚ) (b : BaseSeq)
      (pu st : ℕ), s.base_seqs.find? (fun x => x.id == id) = some b →
      b.params.ty = BaseSeqType.Euclid pu st →
      Sequencer.set_nb_events s id n rd ed = (Except.error (), s)) ∧
    (∀ (s : Sequencer) (id n : ℕ) (rd : ℕ → RandDraw) (ed : ℕ → ℚ × ℚ),
      s.base_seqs.find? (fun x => x.id == id) = none →
      Sequencer.set_nb_events s id n rd ed = (Except.error (), s)) ∧
    (∀ (s : Sequencer) (id : ℕ) (t : ℚ),
      s.base_seqs.find? (fun x => x.id == id) = none →
      Sequencer.change_loop_len s id t = (Except.error (), s)) ∧
    (∀ (s : Sequencer) (id : ℕ) (t : ℚ) (b : BaseSeq),
      s.base_seqs.find? (fun x => x.id == id) = some b →
      (Sequencer.change_loop_len s id t).1 = Except.ok () ∧
      ((Sequencer.change_loop_len s id t).2.base_seqs.find? (fun x => x.id == id)).map
        (fun x => x.params.loop_length) = some t ∧
      (Sequencer.change_loop_len s id t).2.fx_procs = s.fx_procs ∧
      (Sequencer.change_loop_len s id t).2.internal = s.internal ∧
      (Sequencer.change_loop_len s id t).2.params = s.params) := by
  refine ⟨?_, ?_, ?_, ?_⟩
  · intro s id n rd ed b pu st hfind hty
    unfold Sequencer.set_nb_events
    rw [hfind]
    have hbs : BaseSeq.set_nb_events b n rd ed s.internal = Except.error () := by
      unfold BaseSeq.set_nb_events
      rw [hty]
    simp only [hbs]
  · intro s id n rd ed hfind
    unfold Sequencer.set_nb_events
    rw [hfind]
  · intro s id t hfind
    unfold Sequencer.change_loop_len
    rw [hfind]
  · intro s id t b hfind
    unfold Sequencer.change_loop_len
    rw [hfind]
    simp only []
    refine ⟨trivial, ?_, trivial, trivial, trivial⟩
    rw [find?_modifyFirst s.base_seqs id
      (fun b => { b with params := { b.params with loop_length := t } }) (fun x => rfl) b hfind]
    rfl

/-- Witness for C8: the euclidean failure case of the amended statement
instantiated on the concrete sequencer c8_seq. -/
theorem c8_witness :
    c8_seq.base_seqs.find? (fun x => x.id == 0) = some c8_base ∧
    c8_base.params.ty = BaseSeqType.Euclid 3 8 ∧
    Sequencer.set_nb_events c8_seq 0 5 c10_draws c_edraws = (Except.error (), c8_seq) :=
  ⟨rfl, rfl, c8_mutators_amended.1 c8_seq 0 5 c10_draws c_edraws c8_base 3 8 rfl rfl⟩

/-! ## C10: Sequencer.empty -/

/-- C10: empty drops all base sequences and resets the id counter while
leaving the bpm, status, internal state and the effect processor registry
untouched; consequently, in the concrete scenario c10_scenario the
processor created after the reset receives id 1, colliding with the
surviving processor id 1 from before the reset. -/
theorem c10_empty_frame :
    (∀ s : Sequencer,
      (Sequencer.empty s).base_seqs = [] ∧
      (Sequencer.empty s).params.incr = 0 ∧
      (Sequencer.empty s).fx_procs = s.fx_procs ∧
      (Sequencer.empty s).internal = s.internal ∧
      (Sequencer.empty s).params.status = s.params.status ∧
      (Sequencer.empty s).params.bpm = s.params.bpm) ∧
    c10_fx_ids = Except.ok [1, 1] ∧ ¬ ([1, 1] : List ℕ).Nodup := by
  refine ⟨fun s => ⟨rfl, rfl, rfl, rfl, rfl, rfl⟩, rfl, by simp⟩

/-! ## C6: the emission loop on out-of-range events -/

theorem c6_emit_loop_none (procs : List FxProcessor) (si : SeqInternal) :
    ∀ fuel : ℕ, emit_loop procs si 3 [mk_on 1 60 100 5] [] fuel 0 = none := by
  intro fuel
  induction fuel with
  | zero => rfl
  | succ fuel ih =>
    rw [emit_loop]
    simp only [List.get?_cons_zero]
    rw [if_pos (show (3 : ℚ) ≤ (mk_on 1 60 100 5).bar_pos by norm_num [mk_on])]
    have hi : incr_event_head [mk_on 1 60 100 5] 0 = some 0 := by
      unfold incr_event_head
      norm_num
    simp only [hi]
    exact ih

/-- C6: at the concrete sequencer c6_seq, whose single base sequence holds
only an event beyond its loop length, the realtime tick never returns for
any iteration budget: the emission loop skips the out-of-range event,
wraps the head back to the same position and repeats forever. -/
theorem c6_tick_diverges (fuel : ℕ) : tick c6_seq 1000 fuel = none := by
  simp only [tick, c6_seq, c6_base, c_internal, eq_self_iff_true, if_true]
  rw [if_neg (show ¬ (SeqInternalStatus.Playing = SeqInternalStatus.Silence) by decide)]
  rw [if_neg (show ¬ (SeqStatus.Start = SeqStatus.Pause ∨ SeqStatus.Start = SeqStatus.Stop)
    by decide)]
  simp only [seqs_emit]
  rw [c6_emit_loop_none]

/-! ## C5 supporting lemmas -/

theorem mem_rustDedup : ∀ (l : List ℕ) (a : ℕ), a ∈ rustDedup l ↔ a ∈ l := by
  intro l
  induction l with
  | nil =>
    intro a
    simp [rustDedup]
  | cons x rest ih =>
    intro a
    cases rest with
    | nil => simp [rustDedup]
    | cons y t =>
      unfold rustDedup
      by_cases hxy : x = y
      · rw [if_pos hxy]
        rw [ih a]
        subst hxy
        simp [List.mem_cons]
      · rw [if_neg hxy]
        simp [List.mem_cons, ih a]

theorem rustDedup_sorted_lt : ∀ (l : List ℕ), l.Sorted (· ≤ ·) →
    (rustDedup l).Sorted (· < ·) := by
  intro l
  induction l with
  | nil =>
    intro _
    simp [rustDedup]
  | cons x rest ih =>
    intro hs
    cases rest with
    | nil => simp [rustDedup]
    | cons y t =>
      have hs1 := (List.sorted_cons.mp hs).2
      have hxle := (List.sorted_cons.mp hs).1
      unfold rustDedup
      by_cases hxy : x = y
      · rw [if_pos hxy]
        exact ih hs1
      · rw [if_neg hxy]
        rw [List.sorted_cons]
        refine ⟨?_, ih hs1⟩
        intro b hb
        rw [mem_rustDedup] at hb
        have hxb := hxle b hb
        rcases List.mem_cons.mp hb with rfl | hbt
        · exact lt_of_le_of_ne hxb hxy
        · have hyb := (List.sorted_cons.mp hs1).1 b hbt
          have hxy2 : x < y := lt_of_le_of_ne (hxle y (by simp)) hxy
          omega

theorem rustDedup_nodup (l : List ℕ) (h : l.Sorted (· ≤ ·)) : (rustDedup l).Nodup :=
  (rustDedup_sorted_lt l h).imp (fun hlt => ne_of_lt hlt)

theorem notes_off_eq (s : Sequencer) :
    Sequencer.notes_off s =
      (rustDedup (List.insertionSort (fun a b : ℕ => a ≤ b)
        (s.base_seqs.map (fun b => b.params.midi_ch)))).flatMap off_block := rfl

theorem filter_off_block (c c2 : ℕ) :
    (off_block c2).filter (fun e => event_channel e == c) =
      if c2 = c then off_block c2 else [] := by
  by_cases h : c2 = c
  · rw [if_pos h]
    subst h
    unfold off_block
    rw [List.filter_map]
    congr 1
    apply List.filter_eq_self.mpr
    intro a _
    simp [Function.comp, event_channel]
  · rw [if_neg h]
    unfold off_block
    rw [List.filter_map]
    rw [List.map_eq_nil_iff]
    apply List.filter_eq_nil_iff.mpr
    intro a _
    simp [Function.comp, event_channel]
    exact h

theorem filter_flatMap_off_nil (c : ℕ) : ∀ (chs : List ℕ), c ∉ chs →
    ((chs.flatMap off_block).filter (fun e => event_channel e == c)) = [] := by
  intro chs
  induction chs with
  | nil =>
    intro _
    simp
  | cons c2 rest ih =>
    intro hnin
    rw [List.flatMap_cons, List.filter_append, filter_off_block]
    rw [if_neg (show ¬ (c2 = c) from fun h => hnin (h ▸ List.mem_cons_self c2 rest))]
    rw [List.nil_append]
    exact ih (fun h => hnin (List.mem_cons_of_mem c2 h))

theorem filter_flatMap_off (c : ℕ) : ∀ (chs : List ℕ), chs.Nodup → c ∈ chs →
    ((chs.flatMap off_block).filter (fun e => event_channel e == c)) = off_block c := by
  intro chs
  induction chs with
  | nil =>
    intro _ h
    simp at h
  | cons c2 rest ih =>
    intro hnd hmem
    rw [List.flatMap_cons, List.filter_append, filter_off_block]
    by_cases h : c2 = c
    · rw [if_pos h]
      subst h
      have hnin : c2 ∉ rest := (List.nodup_cons.mp hnd).1
      rw [filter_flatMap_off_nil c2 rest hnin, List.append_nil]
    · rw [if_neg h]
      rw [List.nil_append]
      have hmem2 : c ∈ rest := by
        rcases List.mem_cons.mp hmem with rfl | hm
        · exact absurd rfl h
        · exact hm
      exact ih (List.nodup_cons.mp hnd).2 hmem2

theorem notes_off_filter (s : Sequencer) (c : ℕ)
    (hc : c ∈ s.base_seqs.map (fun b => b.params.midi_ch)) :
    (Sequencer.notes_off s).filter (fun e => event_channel e == c) = off_block c := by
  rw [notes_off_eq]
  apply filter_flatMap_off
  · exact rustDedup_nodup _ (List.sorted_insertionSort _ _)
  · rw [mem_rustDedup, List.mem_insertionSort]
    exact hc

theorem notes_off_members (s : Sequencer) :
    ∀ e ∈ Sequencer.notes_off s, ∃ n, e.e_type = EventType.MidiNoteOff n ∧
      n.on_off = false ∧ n.velocity = 1 ∧ n.pitch < 128 ∧
      n.channel ∈ s.base_seqs.map (fun b => b.params.midi_ch) := by
  intro e he
  rw [notes_off_eq, List.mem_flatMap] at he
  obtain ⟨ch, hch, hbe⟩ := he
  rw [mem_rustDedup, List.mem_insertionSort] at hch
  unfold off_block at hbe
  rw [List.mem_map] at hbe
  obtain ⟨p, hp, rfl⟩ := hbe
  exact ⟨_, rfl, rfl, rfl, by simpa using List.mem_range.mp hp, hch⟩

/-- C5: a tick taken while the internal status is Playing and the control
status is Stop emits exactly the all-notes-off tail (per distinct used
channel the 128 note-off events with velocity 1 and pitches 0 to 127, and
nothing else), resets every event head to 0, zeroes both window bounds,
silences the internal status and returns Continue. -/
theorem c5_stop_tick (s : Sequencer) (delta_usec : ℚ) (fuel : ℕ)
    (h1 : s.params.status = SeqStatus.Stop)
    (h2 : s.internal.status = SeqInternalStatus.Playing) :
    ∃ out s2, tick s delta_usec fuel = some (out, s2, JackControl.Continue) ∧
      out = Sequencer.notes_off s ∧
      (∀ c ∈ s.base_seqs.map (fun b => b.params.midi_ch),
        out.filter (fun e => event_channel e == c) = off_block c) ∧
      (∀ e ∈ out, ∃ n, e.e_type = EventType.MidiNoteOff n ∧ n.on_off = false ∧
        n.velocity = 1 ∧ n.pitch < 128 ∧
        n.channel ∈ s.base_seqs.map (fun b => b.params.midi_ch)) ∧
      (∀ b ∈ s2.base_seqs, b.event_head = 0) ∧
      (∀ b2 ∈ s2.base_seqs, ∃ b0 ∈ s.base_seqs, b2 = { b0 with event_head := 0 }) ∧
      s2.internal.j_window_time_start = 0 ∧
      s2.internal.j_window_time_end = 0 ∧
      s2.internal.status = SeqInternalStatus.Silence := by
  unfold tick
  rw [h1]
  rw [if_neg (show ¬ (SeqStatus.Stop = SeqStatus.Start) by decide)]
  rw [if_neg (show ¬ (s.internal.status = SeqInternalStatus.Silence) by
    rw [h2]; decide)]
  rw [if_pos (show SeqStatus.Stop = SeqStatus.Pause ∨ SeqStatus.Stop = SeqStatus.Stop from
    Or.inr rfl)]
  rw [if_pos (show SeqStatus.Stop = SeqStatus.Stop from rfl)]
  refine ⟨_, _, rfl, rfl, ?_, notes_off_members s, ?_, ?_, rfl, rfl, rfl⟩
  · intro c hc
    exact notes_off_filter s c hc
  · intro b hb
    simp only [Sequencer.reset_base_seqs, List.mem_map] at hb
    obtain ⟨b0, _, rfl⟩ := hb
    rfl
  · intro b2 hb2
    simp only [Sequencer.reset_base_seqs, List.mem_map] at hb2
    obtain ⟨b0, hb0, rfl⟩ := hb2
    exact ⟨b0, hb0, rfl⟩

/-- Witness for C5: the stop-tick statement instantiated on the concrete
playing sequencer c5_seq with control status Stop. -/
theorem c5_witness :
    c5_seq.params.status = SeqStatus.Stop ∧
    c5_seq.internal.status = SeqInternalStatus.Playing ∧
    (∃ out s2, tick c5_seq 1000 5 = some (out, s2, JackControl.Continue) ∧
      out = Sequencer.notes_off c5_seq ∧
      (∀ c ∈ c5_seq.base_seqs.map (fun b => b.params.midi_ch),
        out.filter (fun e => event_channel e == c) = off_block c) ∧
      (∀ e ∈ out, ∃ n, e.e_type = EventType.MidiNoteOff n ∧ n.on_off = false ∧
        n.velocity = 1 ∧ n.pitch < 128 ∧
        n.channel ∈ c5_seq.base_seqs.map (fun b => b.params.midi_ch)) ∧
      (∀ b ∈ s2.base_seqs, b.event_head = 0) ∧
      (∀ b2 ∈ s2.base_seqs, ∃ b0 ∈ c5_seq.base_seqs, b2 = { b0 with event_head := 0 }) ∧
      s2.internal.j_window_time_start = 0 ∧
      s2.internal.j_window_time_end = 0 ∧
      s2.internal.status = SeqInternalStatus.Silence) :=
  ⟨rfl, rfl, c5_stop_tick c5_seq 1000 5 rfl rfl⟩

end Gisele
